import Mathlib

/-!
Verification development for the render-graph compiler/executor and the
handle-based resource manager of the `render_sandbox` repository.

The definitions below are a shallow embedding of `src/render_graph.rs`,
`src/resource_manager.rs` and `src/render_passes/*.rs`:

* Rust `HashMap`s are embedded as association lists with insert-replace
  semantics (`ains`), `HashSet`s as duplicate-free lists (`sinsert`);
  iteration order of a Rust `HashMap` is unspecified, the association list
  fixes one concrete order, which is the standard deterministic stand-in.
* The global `HANDLE_COUNTER : AtomicU64` is embedded as an explicitly
  threaded `HandleCounter` state; `fetch_add` wraps modulo `2 ^ 64` exactly
  as the `u64` does.
* The `wgpu` backend objects are opaque to this layer; they are embedded as
  structures carrying only their descriptor label.
* Trait objects (`Box<dyn RenderPass>`) are embedded as a value of an
  arbitrary type `π` together with an explicit method dictionary
  (`PassIface π`), mirroring dynamic dispatch.
* Fallible Rust functions returning `Result` are embedded with `Except`.
* The `while let` loop of Kahn's algorithm is embedded as `kahnLoopF` with
  an explicit fuel argument; the fuel passed by `topological_sort` is the
  loop's termination measure (queue length plus the sum of all in-degrees),
  which provably suffices, so the function computes exactly what the
  source's unbounded loop computes.
-/

namespace RenderSandbox

/-! ### Association-list helpers (embedding of HashMap / HashSet) -/

/-- `HashMap::get`. -/
def alook {α β : Type} [DecidableEq α] : List (α × β) → α → Option β
  | [], _ => none
  | (k, v) :: rest, a => if a = k then some v else alook rest a

/-- The keys of an association list. -/
def akeys {α β : Type} (l : List (α × β)) : List α := l.map Prod.fst

/-- `HashMap::insert`: replace the existing entry or append a fresh one. -/
def ains {α β : Type} [DecidableEq α] : List (α × β) → α → β → List (α × β)
  | [], a, b => [(a, b)]
  | (k, v) :: rest, a, b => if a = k then (a, b) :: rest else (k, v) :: ains rest a b

/-- `HashMap::remove` (the removed value is irrelevant to the embedding). -/
def aerase {α β : Type} [DecidableEq α] : List (α × β) → α → List (α × β)
  | [], _ => []
  | (k, v) :: rest, a => if a = k then rest else (k, v) :: aerase rest a

/-- In-place update of an existing entry (`map.get_mut(k).unwrap()` followed by a
mutation); absent keys are left untouched — in the source that case is an
`unwrap` panic and it is unreachable for the states the theorems quantify over. -/
def amod {α β : Type} [DecidableEq α] : List (α × β) → α → (β → β) → List (α × β)
  | [], _, _ => []
  | (k, v) :: rest, a, f => if a = k then (k, f v) :: rest else (k, v) :: amod rest a f

/-- `map.entry(k).or_default().push(v)`. -/
def apush {α β : Type} [DecidableEq α] : List (α × List β) → α → β → List (α × List β)
  | [], a, b => [(a, [b])]
  | (k, vs) :: rest, a, b =>
    if a = k then (k, vs ++ [b]) :: rest else (k, vs) :: apush rest a b

/-- `HashSet::insert` on a duplicate-free list. -/
def sinsert {α : Type} [DecidableEq α] (l : List α) (a : α) : List α :=
  if a ∈ l then l else l ++ [a]

/-- Lookup of a list-valued entry, defaulting to the empty list. -/
def alookD {α β : Type} [DecidableEq α] (l : List (α × List β)) (k : α) : List β :=
  (alook l k).getD []

instance {ε α : Type} [DecidableEq ε] [DecidableEq α] : DecidableEq (Except ε α) := by
  intro x y
  cases x with
  | error e =>
    cases y with
    | error e' => exact decidable_of_iff (e = e') (by simp)
    | ok a' => exact isFalse (by simp)
  | ok a =>
    cases y with
    | error e' => exact isFalse (by simp)
    | ok a' => exact decidable_of_iff (a = a') (by simp)

/-! ### Backend model (`wgpu` collaborators, opaque to the core) -/

/-- The graphics device; opaque at this layer. -/
abbrev Device := Unit

structure BufferDescriptor where
  label : String
deriving DecidableEq

structure BufferInitDescriptor where
  label : String
deriving DecidableEq

structure TextureDescriptor where
  label : String
deriving DecidableEq

structure ShaderModuleDescriptor where
  label : String
deriving DecidableEq

structure RenderPipelineDescriptor where
  label : String
deriving DecidableEq

structure ComputePipelineDescriptor where
  label : String
deriving DecidableEq

structure BindGroupLayoutDescriptor where
  label : String
deriving DecidableEq

structure BindGroupDescriptor where
  label : String
deriving DecidableEq

structure SamplerDescriptor where
  label : String
deriving DecidableEq

structure Buffer where
  label : String
deriving DecidableEq

structure Texture where
  label : String
deriving DecidableEq

structure BindGroup where
  label : String
deriving DecidableEq

structure BindGroupLayout where
  label : String
deriving DecidableEq

structure RenderPipeline where
  label : String
deriving DecidableEq

structure ComputePipeline where
  label : String
deriving DecidableEq

structure ShaderModule where
  label : String
deriving DecidableEq

structure Sampler where
  label : String
deriving DecidableEq

def Device.create_buffer (_ : Device) (desc : BufferDescriptor) : Buffer := ⟨desc.label⟩

def Device.create_buffer_init (_ : Device) (desc : BufferInitDescriptor) : Buffer := ⟨desc.label⟩

def Device.create_texture (_ : Device) (desc : TextureDescriptor) : Texture := ⟨desc.label⟩

def Device.create_shader_module (_ : Device) (desc : ShaderModuleDescriptor) : ShaderModule :=
  ⟨desc.label⟩

def Device.create_render_pipeline (_ : Device) (desc : RenderPipelineDescriptor) :
    RenderPipeline := ⟨desc.label⟩

def Device.create_bind_group_layout (_ : Device) (desc : BindGroupLayoutDescriptor) :
    BindGroupLayout := ⟨desc.label⟩

def Device.create_bind_group (_ : Device) (desc : BindGroupDescriptor) : BindGroup :=
  ⟨desc.label⟩

def Device.create_sampler (_ : Device) (desc : SamplerDescriptor) : Sampler := ⟨desc.label⟩

/-- A recorded command; the commands a pass records are opaque to the graph. -/
abbrev CommandBuffer := List String

/-- `wgpu::CommandEncoder`: the shared command-recording context. -/
structure CommandEncoder where
  commands : List String
deriving DecidableEq

def CommandEncoder.finish (e : CommandEncoder) : CommandBuffer := e.commands

/-- `wgpu::Queue`, instrumented with the list of submitted command batches so
that submission counts are observable (the spec's test double). -/
structure Queue where
  submissions : List CommandBuffer
deriving DecidableEq

def Queue.submit (q : Queue) (buf : CommandBuffer) : Queue :=
  ⟨q.submissions ++ [buf]⟩

/-! ### Resource manager (`src/resource_manager.rs`) -/

/-- `HandleId(u64)`: the wrapped value is kept as a `Nat` that is always
`< 2 ^ 64`; the wrap happens in `next_handle_id`. -/
structure HandleId where
  id : Nat
deriving DecidableEq

/-- `Handle<T>`: a copyable id with a phantom type tag. -/
structure Handle (T : Type) where
  id : HandleId
deriving DecidableEq

/-- The process-global `HANDLE_COUNTER : AtomicU64`, embedded as threaded
state.  `HANDLE_COUNTER` is initialised to 1. -/
structure HandleCounter where
  next : Nat
deriving DecidableEq

def HANDLE_COUNTER_INIT : HandleCounter := ⟨1⟩

/-- `next_handle_id`: `fetch_add(1, Relaxed)` returns the old value and stores
the incremented value with `u64` wrap-around. -/
def next_handle_id (c : HandleCounter) : HandleId × HandleCounter :=
  (⟨c.next⟩, ⟨(c.next + 1) % (2 ^ 64)⟩)

/-- The closed variant of storable backend objects. -/
inductive Resource : Type where
  | Buffer (b : Buffer)
  | Texture (t : Texture)
  | BindGroup (g : BindGroup)
  | BindGroupLayout (l : BindGroupLayout)
  | RenderPipeline (p : RenderPipeline)
  | ComputePipeline (p : ComputePipeline)
  | Shader (s : ShaderModule)
  | Sampler (s : Sampler)
deriving DecidableEq

inductive ResourceError : Type where
  | ResourceNotFound (id : HandleId)
  | TypeMismatch (id : HandleId)
  | CreationFailed (reason : String)
deriving DecidableEq

/-- The `Display` impl of `ResourceError` (`{:?}` on a `HandleId` prints
`HandleId(n)`). -/
def ResourceError.display : ResourceError → String
  | .ResourceNotFound i => "Resource not found: HandleId(" ++ toString i.id ++ ")"
  | .TypeMismatch i => "Resource type mismatch for: HandleId(" ++ toString i.id ++ ")"
  | .CreationFailed msg => "Resource creation failed: " ++ msg

/-- `ResourceManager`.  The `resources` field is the source's
`HashMap<HandleId, Resource>`.

The `named` field and the two functions `publish_named` /
`get_named_resource` below are *Modelled from the spec*: the repository calls
`resource_manager.get_named_resource("BackBuffer")` (in `render_graph.rs` and
`render_passes/forward_pass.rs`) but the definition of the named-resource
extension is not present under `src/`; the spec describes it as a secondary
mapping from stable name to id. -/
structure ResourceManager where
  resources : List (HandleId × Resource)
  named : List (String × HandleId)
deriving DecidableEq

def ResourceManager.new : ResourceManager := ⟨[], []⟩

def ResourceManager.create_buffer (rm : ResourceManager) (ctr : HandleCounter)
    (device : Device) (desc : BufferDescriptor) :
    Handle Buffer × ResourceManager × HandleCounter :=
  let buffer := device.create_buffer desc
  let p := next_handle_id ctr
  (⟨p.1⟩, { rm with resources := ains rm.resources p.1 (.Buffer buffer) }, p.2)

def ResourceManager.create_buffer_init (rm : ResourceManager) (ctr : HandleCounter)
    (device : Device) (desc : BufferInitDescriptor) :
    Handle Buffer × ResourceManager × HandleCounter :=
  let buffer := device.create_buffer_init desc
  let p := next_handle_id ctr
  (⟨p.1⟩, { rm with resources := ains rm.resources p.1 (.Buffer buffer) }, p.2)

def ResourceManager.create_texture (rm : ResourceManager) (ctr : HandleCounter)
    (device : Device) (desc : TextureDescriptor) :
    Handle Texture × ResourceManager × HandleCounter :=
  let texture := device.create_texture desc
  let p := next_handle_id ctr
  (⟨p.1⟩, { rm with resources := ains rm.resources p.1 (.Texture texture) }, p.2)

def ResourceManager.create_shader (rm : ResourceManager) (ctr : HandleCounter)
    (device : Device) (desc : ShaderModuleDescriptor) :
    Handle ShaderModule × ResourceManager × HandleCounter :=
  let shader := device.create_shader_module desc
  let p := next_handle_id ctr
  (⟨p.1⟩, { rm with resources := ains rm.resources p.1 (.Shader shader) }, p.2)

def ResourceManager.create_render_pipeline (rm : ResourceManager) (ctr : HandleCounter)
    (device : Device) (desc : RenderPipelineDescriptor) :
    Handle RenderPipeline × ResourceManager × HandleCounter :=
  let pipeline := device.create_render_pipeline desc
  let p := next_handle_id ctr
  (⟨p.1⟩, { rm with resources := ains rm.resources p.1 (.RenderPipeline pipeline) }, p.2)

def ResourceManager.create_bind_group_layout (rm : ResourceManager) (ctr : HandleCounter)
    (device : Device) (desc : BindGroupLayoutDescriptor) :
    Handle BindGroupLayout × ResourceManager × HandleCounter :=
  let layout := device.create_bind_group_layout desc
  let p := next_handle_id ctr
  (⟨p.1⟩, { rm with resources := ains rm.resources p.1 (.BindGroupLayout layout) }, p.2)

def ResourceManager.create_bind_group (rm : ResourceManager) (ctr : HandleCounter)
    (device : Device) (desc : BindGroupDescriptor) :
    Handle BindGroup × ResourceManager × HandleCounter :=
  let bind_group := device.create_bind_group desc
  let p := next_handle_id ctr
  (⟨p.1⟩, { rm with resources := ains rm.resources p.1 (.BindGroup bind_group) }, p.2)

def ResourceManager.create_sampler (rm : ResourceManager) (ctr : HandleCounter)
    (device : Device) (desc : SamplerDescriptor) :
    Handle Sampler × ResourceManager × HandleCounter :=
  let sampler := device.create_sampler desc
  let p := next_handle_id ctr
  (⟨p.1⟩, { rm with resources := ains rm.resources p.1 (.Sampler sampler) }, p.2)

def ResourceManager.get_buffer (rm : ResourceManager) (handle : Handle Buffer) :
    Except ResourceError Buffer :=
  match alook rm.resources handle.id with
  | some (.Buffer buffer) => .ok buffer
  | some _ => .error (.TypeMismatch handle.id)
  | none => .error (.ResourceNotFound handle.id)

def ResourceManager.get_texture (rm : ResourceManager) (handle : Handle Texture) :
    Except ResourceError Texture :=
  match alook rm.resources handle.id with
  | some (.Texture texture) => .ok texture
  | some _ => .error (.TypeMismatch handle.id)
  | none => .error (.ResourceNotFound handle.id)

def ResourceManager.get_shader (rm : ResourceManager) (handle : Handle ShaderModule) :
    Except ResourceError ShaderModule :=
  match alook rm.resources handle.id with
  | some (.Shader shader) => .ok shader
  | some _ => .error (.TypeMismatch handle.id)
  | none => .error (.ResourceNotFound handle.id)

def ResourceManager.get_render_pipeline (rm : ResourceManager)
    (handle : Handle RenderPipeline) : Except ResourceError RenderPipeline :=
  match alook rm.resources handle.id with
  | some (.RenderPipeline pipeline) => .ok pipeline
  | some _ => .error (.TypeMismatch handle.id)
  | none => .error (.ResourceNotFound handle.id)

def ResourceManager.get_bind_group_layout (rm : ResourceManager)
    (handle : Handle BindGroupLayout) : Except ResourceError BindGroupLayout :=
  match alook rm.resources handle.id with
  | some (.BindGroupLayout layout) => .ok layout
  | some _ => .error (.TypeMismatch handle.id)
  | none => .error (.ResourceNotFound handle.id)

def ResourceManager.get_bind_group (rm : ResourceManager) (handle : Handle BindGroup) :
    Except ResourceError BindGroup :=
  match alook rm.resources handle.id with
  | some (.BindGroup bind_group) => .ok bind_group
  | some _ => .error (.TypeMismatch handle.id)
  | none => .error (.ResourceNotFound handle.id)

def ResourceManager.get_sampler (rm : ResourceManager) (handle : Handle Sampler) :
    Except ResourceError Sampler :=
  match alook rm.resources handle.id with
  | some (.Sampler sampler) => .ok sampler
  | some _ => .error (.TypeMismatch handle.id)
  | none => .error (.ResourceNotFound handle.id)

/-- `remove_resource<T>` matches on the numeric id only; the phantom tag `T`
plays no role. -/
def ResourceManager.remove_resource {T : Type} (rm : ResourceManager) (handle : Handle T) :
    Bool × ResourceManager :=
  ((alook rm.resources handle.id).isSome,
   { rm with resources := aerase rm.resources handle.id })

def ResourceManager.resource_count (rm : ResourceManager) : Nat := rm.resources.length

def ResourceManager.clear (rm : ResourceManager) : ResourceManager :=
  { rm with resources := [] }

/-- Modelled from the spec: `publish_named(name, handle)` records the handle's
id under a stable string name (insert-replace, like a map insert). -/
def ResourceManager.publish_named {T : Type} (rm : ResourceManager) (name : String)
    (handle : Handle T) : ResourceManager :=
  { rm with named := ains rm.named name handle.id }

/-- Modelled from the spec: `get_named_resource(name) -> Option<Handle<Kind>>`
returns a handle of the *requested* kind wrapping the stored id (the kind is
only checked later, by the typed `get_*` lookup). -/
def ResourceManager.get_named_resource (T : Type) (rm : ResourceManager) (name : String) :
    Option (Handle T) :=
  (alook rm.named name).map (fun i => ⟨i⟩)

/-! ### Render graph core types (`src/render_graph.rs`) -/

/-- `PassId(String)`. -/
structure PassId where
  name : String
deriving DecidableEq

def PassId.new (s : String) : PassId := ⟨s⟩

/-- `ResourceId(String)`: names a logical resource slot. -/
structure ResourceId where
  name : String
deriving DecidableEq

def ResourceId.new (s : String) : ResourceId := ⟨s⟩

inductive ResourceUsage : Type where
  | Read
  | Write
  | ReadWrite
deriving DecidableEq

/-- Usage counts as writing (`Write | ReadWrite`), first `match` in `compile`. -/
def ResourceUsage.isWriteLike : ResourceUsage → Bool
  | .Write => true
  | .ReadWrite => true
  | .Read => false

/-- Usage counts as reading (`Read | ReadWrite`), second `match` in `compile`. -/
def ResourceUsage.isReadLike : ResourceUsage → Bool
  | .Read => true
  | .ReadWrite => true
  | .Write => false

structure ResourceDeclaration where
  id : ResourceId
  usage : ResourceUsage
deriving DecidableEq

inductive RenderGraphError : Type where
  | CyclicDependency
  | PassNotFound (id : PassId)
  | ResourceNotFound (id : ResourceId)
  | CompilationFailed (reason : String)
  | ExecutionFailed (reason : String)
deriving DecidableEq

/-- The `Display` impl of `RenderGraphError`. -/
def RenderGraphError.display : RenderGraphError → String
  | .CyclicDependency => "Cyclic dependency detected in render graph"
  | .PassNotFound i => "Render pass not found: " ++ i.name
  | .ResourceNotFound i => "Resource not found: " ++ i.name
  | .CompilationFailed msg => "Render graph compilation failed: " ++ msg
  | .ExecutionFailed msg => "Render graph execution failed: " ++ msg

/-- The `RenderPass` trait as an explicit method dictionary over an arbitrary
pass representation `π` (the embedding of `Box<dyn RenderPass>`).
`initialize` takes `&mut self`, embedded by returning the updated pass. -/
structure PassIface (π : Type) where
  id : π → PassId
  resources : π → List ResourceDeclaration
  initFn : π → Device → ResourceManager → Except RenderGraphError π
  execute : π → Device → Queue → ResourceManager → CommandEncoder →
    Except RenderGraphError CommandEncoder

/-- Compiled render graph with topologically sorted passes. -/
structure CompiledRenderGraph where
  passes : List PassId
  resource_dependencies : List (ResourceId × List PassId)
deriving DecidableEq

/-- Dynamic render graph. -/
structure RenderGraph (π : Type) where
  passes : List (PassId × π)
  resource_declarations : List (PassId × List ResourceDeclaration)
  compiled : Option CompiledRenderGraph
deriving DecidableEq

def RenderGraph.new (π : Type) : RenderGraph π := ⟨[], [], none⟩

/-- `add_pass`: store the declarations and the pass under the pass's id and
invalidate the compiled cache. -/
def RenderGraph.add_pass {π : Type} (iface : PassIface π) (g : RenderGraph π) (pass : π) :
    RenderGraph π :=
  let i := iface.id pass
  let resources := iface.resources pass
  { passes := ains g.passes i pass
    resource_declarations := ains g.resource_declarations i resources
    compiled := none }

/-- `remove_pass`: returns whether a pass was removed; the compiled cache is
invalidated only in that case. -/
def RenderGraph.remove_pass {π : Type} (g : RenderGraph π) (i : PassId) :
    Bool × RenderGraph π :=
  let removed := (alook g.passes i).isSome
  let g' : RenderGraph π :=
    { g with passes := aerase g.passes i,
             resource_declarations := aerase g.resource_declarations i }
  if removed then (true, { g' with compiled := none }) else (false, g')

def RenderGraph.clear {π : Type} (_g : RenderGraph π) : RenderGraph π := ⟨[], [], none⟩

def RenderGraph.pass_count {π : Type} (g : RenderGraph π) : Nat := g.passes.length

def RenderGraph.is_compiled {π : Type} (g : RenderGraph π) : Bool := g.compiled.isSome

def RenderGraph.execution_order {π : Type} (g : RenderGraph π) : Option (List PassId) :=
  g.compiled.map CompiledRenderGraph.passes

/-! ### Compilation (`compile` and `topological_sort`) -/

/-- Inner loop of the first collection pass of `compile`: push `pid` onto the
per-resource list for every declaration whose usage satisfies `pred`. -/
def pushDecls (pred : ResourceUsage → Bool) (pid : PassId) :
    List ResourceDeclaration → List (ResourceId × List PassId) →
    List (ResourceId × List PassId)
  | [], acc => acc
  | d :: ds, acc =>
    pushDecls pred pid ds (if pred d.usage then apush acc d.id pid else acc)

/-- First collection pass of `compile` restricted to one usage kind: collect,
per resource id, the passes touching it with that kind of usage. -/
def buildWR (pred : ResourceUsage → Bool) :
    List (PassId × List ResourceDeclaration) → List (ResourceId × List PassId) →
    List (ResourceId × List PassId)
  | [], acc => acc
  | (pid, ds) :: rest, acc => buildWR pred rest (pushDecls pred pid ds acc)

/-- `resource_writers` of `compile`. -/
def RenderGraph.writersMap {π : Type} (g : RenderGraph π) : List (ResourceId × List PassId) :=
  buildWR ResourceUsage.isWriteLike g.resource_declarations []

/-- `resource_readers` of `compile`. -/
def RenderGraph.readersMap {π : Type} (g : RenderGraph π) : List (ResourceId × List PassId) :=
  buildWR ResourceUsage.isReadLike g.resource_declarations []

/-- `dependencies` after the first loop of `compile`: every declaring pass is
present with an empty dependency set. -/
def RenderGraph.depsInit {π : Type} (g : RenderGraph π) : List (PassId × List PassId) :=
  g.resource_declarations.map (fun kv => (kv.1, []))

/-- Innermost loop of the second pass of `compile`: for a fixed reader, insert
every writer other than the reader itself into the reader's dependency set. -/
def insertWriters (r : PassId) : List PassId → List (PassId × List PassId) →
    List (PassId × List PassId)
  | [], dm => dm
  | w :: ws, dm =>
    insertWriters r ws (if r = w then dm else amod dm r (fun s => sinsert s w))

/-- For every (reader, writer) pair of one resource, add the edge. -/
def addEdgesFor (ws : List PassId) : List PassId → List (PassId × List PassId) →
    List (PassId × List PassId)
  | [], dm => dm
  | r :: rs, dm => addEdgesFor ws rs (insertWriters r ws dm)

/-- Second pass of `compile`: readers depend on writers; resources without a
declared writer contribute nothing. -/
def addEdges (wm : List (ResourceId × List PassId)) :
    List (ResourceId × List PassId) → List (PassId × List PassId) →
    List (PassId × List PassId)
  | [], dm => dm
  | (res, rs) :: rest, dm =>
    addEdges wm rest
      (match alook wm res with
       | none => dm
       | some ws => addEdgesFor ws rs dm)

/-- The full `dependencies` map of `compile`. -/
def RenderGraph.depsMap {π : Type} (g : RenderGraph π) : List (PassId × List PassId) :=
  addEdges g.writersMap g.readersMap g.depsInit

/-- The dependency set of a pass (empty for passes with no entry). -/
def RenderGraph.depsOf {π : Type} (g : RenderGraph π) (p : PassId) : List PassId :=
  alookD g.depsMap p

/-- The writer list of a resource. -/
def RenderGraph.writersOfL {π : Type} (g : RenderGraph π) (res : ResourceId) : List PassId :=
  alookD g.writersMap res

/-- The reader list of a resource. -/
def RenderGraph.readersOfL {π : Type} (g : RenderGraph π) (res : ResourceId) : List PassId :=
  alookD g.readersMap res

/-- `*degree -= 1` on `in_degree[nb]`, reporting whether the degree reached
zero by this decrement.  The source decrements a `usize`; a decrement of a
zero degree would be an underflow panic there and is unreachable, here it
saturates and reports `false`. -/
def bump : List (PassId × Nat) → PassId → List (PassId × Nat) × Bool
  | [], _ => ([], false)
  | (k, d) :: rest, nb =>
    if nb = k then ((k, d - 1) :: rest, decide (d = 1))
    else
      let r := bump rest nb
      ((k, d) :: r.1, r.2)

/-- The neighbor loop of Kahn's algorithm: decrement each dependent's
in-degree and enqueue those that reach zero. -/
def relax : List PassId → List (PassId × Nat) → List PassId →
    List (PassId × Nat) × List PassId
  | [], ind, q => (ind, q)
  | nb :: rest, ind, q =>
    let r := bump ind nb
    relax rest r.1 (if r.2 then q ++ [nb] else q)

/-- Sum of all stored in-degrees. -/
def degSum (l : List (PassId × Nat)) : Nat := (l.map Prod.snd).sum

/-- The `while let Some(current) = queue.pop_front()` loop of
`topological_sort`.  `fuel` makes the recursion structural; the caller passes
the loop's termination measure, which suffices (see `relax_measure_le` and
`kahnLoopF_spec`), so the fuel-out arm is never taken there. -/
def kahnLoopF (adj : List (PassId × List PassId)) :
    Nat → List (PassId × Nat) → List PassId → List PassId → List PassId
  | _, _, [], sorted => sorted
  | 0, _, _ :: _, sorted => sorted
  | fuel + 1, ind, c :: queue, sorted =>
    let nbs := alookD adj c
    let s := relax nbs ind queue
    kahnLoopF adj fuel s.1 s.2 (sorted ++ [c])

/-- Adjacency-building inner loop of `topological_sort`: for one entry
`(dependent, deps)` of `dependencies`, push `dependent` onto
`adj_list[dependency]` and increment `in_degree[dependent]` for every
`dependency` in `deps`. -/
def addDepEntry (dep : PassId) : List PassId →
    List (PassId × Nat) × List (PassId × List PassId) →
    List (PassId × Nat) × List (PassId × List PassId)
  | [], s => s
  | q :: qs, (ind, adj) =>
    addDepEntry dep qs (amod ind dep (fun d => d + 1), amod adj q (fun l => l ++ [dep]))

/-- Build `in_degree` and `adj_list` from the `dependencies` map. -/
def buildIndAdj : List (PassId × List PassId) →
    List (PassId × Nat) × List (PassId × List PassId) →
    List (PassId × Nat) × List (PassId × List PassId)
  | [], s => s
  | (dep, qs) :: rest, s => buildIndAdj rest (addDepEntry dep qs s)

/-- The list produced by Kahn's algorithm for the graph's pass set and a
dependency map (the content of `sorted` when the loop of `topological_sort`
exits). -/
def RenderGraph.kahnSorted {π : Type} (g : RenderGraph π)
    (dependencies : List (PassId × List PassId)) : List PassId :=
  let ind0 : List (PassId × Nat) := g.passes.map (fun kv => (kv.1, 0))
  let adj0 : List (PassId × List PassId) := g.passes.map (fun kv => (kv.1, []))
  let s := buildIndAdj dependencies (ind0, adj0)
  let queue := (s.1.filter (fun kv => decide (kv.2 = 0))).map Prod.fst
  kahnLoopF s.2 (queue.length + degSum s.1) s.1 queue []

/-- `topological_sort`: fail with `CyclicDependency` when the emitted order is
shorter than the pass count. -/
def RenderGraph.topological_sort {π : Type} (g : RenderGraph π)
    (dependencies : List (PassId × List PassId)) :
    Except RenderGraphError (List PassId) :=
  let sorted := g.kahnSorted dependencies
  if sorted.length ≠ g.passes.length then .error .CyclicDependency else .ok sorted

/-- `compile`: build the dependency map, topologically sort, and cache the
result; on failure the graph is returned unchanged by the caller (the source
mutates `self` only on success). -/
def RenderGraph.compile {π : Type} (g : RenderGraph π) :
    Except RenderGraphError (RenderGraph π) :=
  match g.topological_sort g.depsMap with
  | .error e => .error e
  | .ok sorted =>
    .ok { g with compiled := some ⟨sorted, g.writersMap⟩ }

/-! ### Execution (`initialize_passes` and `execute`) -/

/-- The `for (pass_id, pass) in self.passes.iter_mut()` loop of
`initialize_passes`, with `?` propagation. -/
def initAll {π : Type} (iface : PassIface π) (device : Device) (rm : ResourceManager) :
    List (PassId × π) → Except RenderGraphError (List (PassId × π))
  | [] => .ok []
  | (k, p) :: rest =>
    match iface.initFn p device rm with
    | .error e => .error e
    | .ok p' =>
      match initAll iface device rm rest with
      | .error e => .error e
      | .ok rest' => .ok ((k, p') :: rest')

def RenderGraph.initialize_passes {π : Type} (g : RenderGraph π) (iface : PassIface π)
    (device : Device) (rm : ResourceManager) : Except RenderGraphError (RenderGraph π) :=
  match initAll iface device rm g.passes with
  | .error e => .error e
  | .ok passes' => .ok { g with passes := passes' }

/-- The `for pass_id in &compiled.passes` loop of `execute`: look each pass up,
run it against the shared encoder, and wrap the first failure. -/
def execLoop {π : Type} (iface : PassIface π) (g : RenderGraph π) (device : Device)
    (q : Queue) (rm : ResourceManager) :
    List PassId → CommandEncoder → Except RenderGraphError CommandEncoder
  | [], enc => .ok enc
  | pid :: rest, enc =>
    match alook g.passes pid with
    | none => .error (.PassNotFound pid)
    | some pass =>
      match iface.execute pass device q rm enc with
      | .error e =>
        .error (.ExecutionFailed ("Pass " ++ pid.name ++ " failed: " ++ e.display))
      | .ok enc' => execLoop iface g device q rm rest enc'

/-- `execute`: requires a compiled graph, records every pass into one encoder,
and submits the single batch exactly once at the end; the pair's second
component is the queue after the call, so submissions are observable. -/
def RenderGraph.execute {π : Type} (g : RenderGraph π) (iface : PassIface π)
    (device : Device) (q : Queue) (rm : ResourceManager) :
    Except RenderGraphError Unit × Queue :=
  match g.compiled with
  | none => (.error (.CompilationFailed ("Graph not compiled")), q)
  | some compiled =>
    let encoder : CommandEncoder := ⟨[]⟩
    match execLoop iface g device q rm compiled.passes encoder with
    | .error e => (.error e, q)
    | .ok enc => (.ok (), q.submit enc.finish)

/-! ### Concrete pass implementations (`PlaceholderPass`, `ForwardRenderPass`) -/

structure PlaceholderPass where
  id : PassId
  resources : List ResourceDeclaration

def PlaceholderPass.new (name : String) : PlaceholderPass := ⟨PassId.new name, []⟩

def PlaceholderPass.with_resource (p : PlaceholderPass) (resource_id : String)
    (usage : ResourceUsage) : PlaceholderPass :=
  { p with resources := p.resources ++ [⟨ResourceId.new resource_id, usage⟩] }

/-- `ForwardRenderPass` of `render_graph.rs`: carries its clear color,
resolution, the lazily created pipeline, and the `initialized` flag. -/
structure ForwardRenderPass where
  id : PassId
  resources : List ResourceDeclaration
  clear_color : List Float
  resolution : Nat × Nat
  render_pipeline : Option RenderPipeline
  initialized : Bool

def ForwardRenderPass.new (name : String) : ForwardRenderPass :=
  ⟨PassId.new name, [], [0.0, 0.0, 0.0, 1.0], (800, 600), none, false⟩

def ForwardRenderPass.with_resource (p : ForwardRenderPass) (resource_id : String)
    (usage : ResourceUsage) : ForwardRenderPass :=
  { p with resources := p.resources ++ [⟨ResourceId.new resource_id, usage⟩] }

/-- The closed set of pass implementations present in the repository, used to
instantiate the trait dictionary for the lifecycle claims. -/
inductive PassObj : Type where
  | placeholder (p : PlaceholderPass)
  | forward (p : ForwardRenderPass)

/-- `initialize` of the concrete passes.  `PlaceholderPass` has no
initialization; `ForwardRenderPass` no-ops when its `initialized` flag is set
and otherwise creates its pipeline (shader and pipeline creation are
infallible `wgpu` device calls) and sets the flag. -/
def PassObj.initObj : PassObj → Device → ResourceManager →
    Except RenderGraphError PassObj
  | .placeholder p, _, _ => .ok (.placeholder p)
  | .forward p, device, _ =>
    if p.initialized then .ok (.forward p)
    else
      let pipeline := device.create_render_pipeline ⟨"Forward Render Pipeline"⟩
      .ok (.forward { p with render_pipeline := some pipeline, initialized := true })

/-- `execute` of the concrete passes.  The forward pass resolves its render
targets by name (the named-resource extension is modelled from the spec) and
records one render pass, drawing only when a pipeline exists. -/
def PassObj.execute : PassObj → Device → Queue → ResourceManager → CommandEncoder →
    Except RenderGraphError CommandEncoder
  | .placeholder _, _, _, _, enc => .ok enc
  | .forward p, _, _, rm, enc =>
    match rm.get_named_resource Texture ("BackBuffer") with
    | none => .error (.ResourceNotFound (ResourceId.new ("BackBuffer")))
    | some hBack =>
      match rm.get_texture hBack with
      | .error e => .error (.ExecutionFailed ("Failed to get BackBuffer: " ++ e.display))
      | .ok _ =>
        match rm.get_named_resource Texture ("DepthBuffer") with
        | none => .error (.ResourceNotFound (ResourceId.new ("DepthBuffer")))
        | some hDepth =>
          match rm.get_texture hDepth with
          | .error e =>
            .error (.ExecutionFailed ("Failed to get DepthBuffer: " ++ e.display))
          | .ok _ =>
            .ok ⟨enc.commands ++ ["begin_render_pass Forward Render Pass"] ++
              (if p.render_pipeline.isSome then ["set_pipeline", "draw"] else [])⟩

def PassObj.idOf : PassObj → PassId
  | .placeholder p => p.id
  | .forward p => p.id

def PassObj.resourcesOf : PassObj → List ResourceDeclaration
  | .placeholder p => p.resources
  | .forward p => p.resources

/-- The trait dictionary for the repository's concrete pass types. -/
def objIface : PassIface PassObj :=
  ⟨PassObj.idOf, PassObj.resourcesOf, PassObj.initObj, PassObj.execute⟩

/-! ### Specification-side predicates for the scheduling claims -/

/-- The graph is well formed: the pass table and the declaration table have
identical, duplicate-free key lists.  `add_pass` / `remove_pass` / `clear`
maintain this in lock-step; the source relies on it (`unwrap`s in `compile`
and `topological_sort`). -/
def RenderGraph.Wf {π : Type} (g : RenderGraph π) : Prop :=
  akeys g.resource_declarations = akeys g.passes ∧ (akeys g.passes).Nodup

instance {π : Type} (g : RenderGraph π) : Decidable g.Wf := by
  unfold RenderGraph.Wf; infer_instance

/-- Pass `p` declares a writing usage (`Write` or `ReadWrite`) on `res`. -/
def RenderGraph.writesRes {π : Type} (g : RenderGraph π) (p : PassId) (res : ResourceId) :
    Prop :=
  ∃ ds, alook g.resource_declarations p = some ds ∧
    ∃ d ∈ ds, d.id = res ∧ d.usage.isWriteLike = true

/-- Pass `p` declares a reading usage (`Read` or `ReadWrite`) on `res`. -/
def RenderGraph.readsRes {π : Type} (g : RenderGraph π) (p : PassId) (res : ResourceId) :
    Prop :=
  ∃ ds, alook g.resource_declarations p = some ds ∧
    ∃ d ∈ ds, d.id = res ∧ d.usage.isReadLike = true

/-- `r` depends on `w` in the induced writer-to-reader dependency graph. -/
def RenderGraph.dependsOn {π : Type} (g : RenderGraph π) (r w : PassId) : Prop :=
  w ≠ r ∧ ∃ res, g.writesRes w res ∧ g.readsRes r res

/-- The induced dependency graph has a cycle. -/
def RenderGraph.HasCycle {π : Type} (g : RenderGraph π) : Prop :=
  ∃ p, Relation.TransGen g.dependsOn p p

/-- Index of the first occurrence of a pass in an order (length if absent). -/
def idxOf (l : List PassId) (a : PassId) : Nat := l.findIdx (fun x => decide (x = a))

/-- The order respects the dependency map: every dependency of the pass at
position `i` occurs strictly earlier. -/
def topoSpec (deps : PassId → List PassId) (l : List PassId) : Prop :=
  ∀ i, (hi : i < l.length) → ∀ q ∈ deps (l.get ⟨i, hi⟩), q ∈ l.take i

/-! ### Operation sequences over the resource manager (for the id claims) -/

inductive MgrOp : Type where
  | createBuffer (desc : BufferDescriptor)
  | createBufferInit (desc : BufferInitDescriptor)
  | createTexture (desc : TextureDescriptor)
  | createShader (desc : ShaderModuleDescriptor)
  | createRenderPipeline (desc : RenderPipelineDescriptor)
  | createBindGroupLayout (desc : BindGroupLayoutDescriptor)
  | createBindGroup (desc : BindGroupDescriptor)
  | createSampler (desc : SamplerDescriptor)
  | removeResource (i : HandleId)
  | clearAll
deriving DecidableEq

def MgrOp.isCreate : MgrOp → Bool
  | .removeResource _ => false
  | .clearAll => false
  | _ => true

/-- Number of `create_*` calls in a sequence. -/
def countCreates (ops : List MgrOp) : Nat := (ops.filter MgrOp.isCreate).length

/-- Run a sequence of manager operations, collecting the issued handle ids in
order. -/
def runOps (device : Device) : List MgrOp → ResourceManager → HandleCounter →
    ResourceManager × HandleCounter × List HandleId
  | [], rm, c => (rm, c, [])
  | op :: rest, rm, c =>
    match op with
    | .createBuffer desc =>
      let r := rm.create_buffer c device desc
      let s := runOps device rest r.2.1 r.2.2
      (s.1, s.2.1, r.1.id :: s.2.2)
    | .createBufferInit desc =>
      let r := rm.create_buffer_init c device desc
      let s := runOps device rest r.2.1 r.2.2
      (s.1, s.2.1, r.1.id :: s.2.2)
    | .createTexture desc =>
      let r := rm.create_texture c device desc
      let s := runOps device rest r.2.1 r.2.2
      (s.1, s.2.1, r.1.id :: s.2.2)
    | .createShader desc =>
      let r := rm.create_shader c device desc
      let s := runOps device rest r.2.1 r.2.2
      (s.1, s.2.1, r.1.id :: s.2.2)
    | .createRenderPipeline desc =>
      let r := rm.create_render_pipeline c device desc
      let s := runOps device rest r.2.1 r.2.2
      (s.1, s.2.1, r.1.id :: s.2.2)
    | .createBindGroupLayout desc =>
      let r := rm.create_bind_group_layout c device desc
      let s := runOps device rest r.2.1 r.2.2
      (s.1, s.2.1, r.1.id :: s.2.2)
    | .createBindGroup desc =>
      let r := rm.create_bind_group c device desc
      let s := runOps device rest r.2.1 r.2.2
      (s.1, s.2.1, r.1.id :: s.2.2)
    | .createSampler desc =>
      let r := rm.create_sampler c device desc
      let s := runOps device rest r.2.1 r.2.2
      (s.1, s.2.1, r.1.id :: s.2.2)
    | .removeResource i =>
      let r := rm.remove_resource (⟨i⟩ : Handle Buffer)
      runOps device rest r.2 c
    | .clearAll => runOps device rest rm.clear c

/-- Manager/counter pair consistency: the counter is a live `u64` value and
every stored id was issued before the counter's current value. -/
def rmWf (rm : ResourceManager) (c : HandleCounter) : Prop :=
  c.next < 2 ^ 64 ∧ ∀ k ∈ akeys rm.resources, k.id < c.next

/-! ### Concrete example graphs -/

/-- The spec's scenario 1: `ClearPass` writes `BackBuffer`; `ForwardPass`
reads and writes `BackBuffer` and `DepthBuffer`. -/
def exampleCF : RenderGraph Unit :=
  ⟨[(PassId.new ("ClearPass"), ()), (PassId.new ("ForwardPass"), ())],
   [(PassId.new ("ClearPass"), [⟨ResourceId.new ("BackBuffer"), .Write⟩]),
    (PassId.new ("ForwardPass"),
      [⟨ResourceId.new ("BackBuffer"), .ReadWrite⟩,
       ⟨ResourceId.new ("DepthBuffer"), .ReadWrite⟩])],
   none⟩

/-- The spec's cyclic scenario: A writes X; B reads X, writes Y; C reads Y,
writes X. -/
def exampleABC : RenderGraph Unit :=
  ⟨[(PassId.new ("A"), ()), (PassId.new ("B"), ()), (PassId.new ("C"), ())],
   [(PassId.new ("A"), [⟨ResourceId.new ("X"), .Write⟩]),
    (PassId.new ("B"),
      [⟨ResourceId.new ("X"), .Read⟩, ⟨ResourceId.new ("Y"), .Write⟩]),
    (PassId.new ("C"),
      [⟨ResourceId.new ("Y"), .Read⟩, ⟨ResourceId.new ("X"), .Write⟩])],
   none⟩

/-- An empty graph over the trivial pass representation. -/
def emptyGraphU : RenderGraph Unit := ⟨[], [], none⟩

end RenderSandbox

namespace RenderSandbox

/-! ## Lemmas: association-list helpers -/

variable {α β γ : Type} [DecidableEq α]

theorem alook_ains_self (l : List (α × β)) (k : α) (v : β) :
    alook (ains l k v) k = some v := by
  induction l with
  | nil => simp [ains, alook]
  | cons kv rest ih =>
    by_cases h : k = kv.1
    · simp [ains, h, alook]
    · simp [ains, h, alook, ih]

theorem alook_ains_ne (l : List (α × β)) {k k' : α} (v : β) (h : k' ≠ k) :
    alook (ains l k v) k' = alook l k' := by
  induction l with
  | nil => simp [ains, alook, h]
  | cons kv rest ih =>
    by_cases hk : k = kv.1
    · subst hk; simp [ains, alook, h, ih]
    · by_cases hk' : k' = kv.1
      · simp [ains, alook, hk, hk']
      · simp [ains, alook, hk, hk', ih]

theorem akeys_cons (kv : α × β) (rest : List (α × β)) :
    akeys (kv :: rest) = kv.1 :: akeys rest := rfl

theorem ains_length_of_mem (l : List (α × β)) {k : α} (v : β) (h : k ∈ akeys l) :
    (ains l k v).length = l.length := by
  induction l with
  | nil => simp [akeys] at h
  | cons kv rest ih =>
    rw [akeys_cons] at h
    by_cases hk : k = kv.1
    · simp [ains, hk]
    · have h' : k ∈ akeys rest := by
        rcases List.mem_cons.1 h with h1 | h1
        · exact absurd h1 hk
        · exact h1
      simp [ains, hk, ih h']

theorem aerase_of_alook_none {l : List (α × β)} {k : α} (h : alook l k = none) :
    aerase l k = l := by
  induction l with
  | nil => simp [aerase]
  | cons kv rest ih =>
    by_cases hk : k = kv.1
    · simp [alook, hk] at h
    · simp [alook, hk] at h
      simp [aerase, hk, ih h]

theorem mem_akeys_of_alook {l : List (α × β)} {k : α} {v : β} (h : alook l k = some v) :
    k ∈ akeys l := by
  induction l with
  | nil => simp [alook] at h
  | cons kv rest ih =>
    rw [akeys_cons]
    by_cases hk : k = kv.1
    · exact List.mem_cons.2 (Or.inl hk)
    · simp [alook, hk] at h
      exact List.mem_cons.2 (Or.inr (ih h))

theorem alook_of_not_mem_akeys {l : List (α × β)} {k : α} (h : k ∉ akeys l) :
    alook l k = none := by
  cases hl : alook l k with
  | none => rfl
  | some v => exact absurd (mem_akeys_of_alook hl) h

theorem alook_isSome_of_mem {l : List (α × β)} {k : α} (h : k ∈ akeys l) :
    ∃ v, alook l k = some v := by
  induction l with
  | nil => simp [akeys] at h
  | cons kv rest ih =>
    rw [akeys_cons] at h
    by_cases hk : k = kv.1
    · exact ⟨kv.2, by simp [alook, hk]⟩
    · have h' : k ∈ akeys rest := by
        rcases List.mem_cons.1 h with h1 | h1
        · exact absurd h1 hk
        · exact h1
      obtain ⟨v, hv⟩ := ih h'
      exact ⟨v, by simp [alook, hk, hv]⟩

theorem alook_aerase_self {l : List (α × β)} {k : α} (h : (akeys l).Nodup) :
    alook (aerase l k) k = none := by
  induction l with
  | nil => simp [aerase, alook]
  | cons kv rest ih =>
    simp only [akeys, List.map_cons, List.nodup_cons] at h
    by_cases hk : k = kv.1
    · subst hk
      simp only [aerase, if_pos rfl]
      exact alook_of_not_mem_akeys h.1
    · simp [aerase, hk, alook, ih h.2]

theorem alook_aerase_ne (l : List (α × β)) {k k' : α} (h : k' ≠ k) :
    alook (aerase l k) k' = alook l k' := by
  induction l with
  | nil => simp [aerase]
  | cons kv rest ih =>
    by_cases hk : k = kv.1
    · subst hk; simp [aerase, alook, h]
    · by_cases hk' : k' = kv.1
      · simp [aerase, alook, hk, hk']
      · simp [aerase, alook, hk, hk', ih]

theorem akeys_amod (l : List (α × β)) (k : α) (f : β → β) :
    akeys (amod l k f) = akeys l := by
  induction l with
  | nil => simp [amod]
  | cons kv rest ih =>
    by_cases hk : k = kv.1
    · simp [amod, hk, akeys]
    · simp [amod, hk, akeys] at ih ⊢
      exact ih

theorem alook_amod_self (l : List (α × β)) (k : α) (f : β → β) :
    alook (amod l k f) k = (alook l k).map f := by
  induction l with
  | nil => simp [amod, alook]
  | cons kv rest ih =>
    by_cases hk : k = kv.1
    · simp [amod, hk, alook]
    · simp [amod, hk, alook, ih]

theorem alook_amod_ne (l : List (α × β)) {k k' : α} (f : β → β) (h : k' ≠ k) :
    alook (amod l k f) k' = alook l k' := by
  induction l with
  | nil => simp [amod]
  | cons kv rest ih =>
    by_cases hk : k = kv.1
    · subst hk; simp [amod, alook, h]
    · by_cases hk' : k' = kv.1
      · simp [amod, alook, hk, hk']
      · simp [amod, alook, hk, hk', ih]

theorem alook_apush_self (l : List (α × List β)) (k : α) (v : β) :
    alook (apush l k v) k = some ((alook l k).getD [] ++ [v]) := by
  induction l with
  | nil => simp [apush, alook]
  | cons kv rest ih =>
    by_cases hk : k = kv.1
    · simp [apush, hk, alook]
    · simp [apush, hk, alook, ih]

theorem alook_apush_ne (l : List (α × List β)) {k k' : α} (v : β) (h : k' ≠ k) :
    alook (apush l k v) k' = alook l k' := by
  induction l with
  | nil => simp [apush, alook, h]
  | cons kv rest ih =>
    by_cases hk : k = kv.1
    · subst hk; simp [apush, alook, h]
    · by_cases hk' : k' = kv.1
      · simp [apush, alook, hk, hk']
      · simp [apush, alook, hk, hk', ih]

theorem akeys_apush (l : List (α × List β)) (k : α) (v : β) :
    akeys (apush l k v) = if k ∈ akeys l then akeys l else akeys l ++ [k] := by
  induction l with
  | nil => simp [apush, akeys]
  | cons kv rest ih =>
    obtain ⟨k1, v1⟩ := kv
    by_cases hk : k = k1
    · simp [apush, hk, akeys_cons]
    · rw [show apush ((k1, v1) :: rest) k v = (k1, v1) :: apush rest k v from by
        simp [apush, hk]]
      rw [akeys_cons, akeys_cons, ih]
      by_cases hm : k ∈ akeys rest
      · simp [hm, hk]
      · simp [hm, hk]

theorem akeys_apush_nodup {l : List (α × List β)} {k : α} {v : β}
    (h : (akeys l).Nodup) : (akeys (apush l k v)).Nodup := by
  rw [akeys_apush]
  by_cases hm : k ∈ akeys l
  · simpa [hm]
  · rw [if_neg hm]
    simp [List.nodup_append, h, hm]

theorem mem_sinsert {l : List α} {a b : α} : a ∈ sinsert l b ↔ a = b ∨ a ∈ l := by
  unfold sinsert
  by_cases h : b ∈ l
  · rw [if_pos h]
    constructor
    · exact Or.inr
    · rintro (rfl | hm)
      · exact h
      · exact hm
  · rw [if_neg h]
    simp only [List.mem_append, List.mem_singleton]
    tauto

theorem sinsert_nodup {l : List α} {b : α} (h : l.Nodup) : (sinsert l b).Nodup := by
  unfold sinsert
  by_cases hm : b ∈ l
  · simpa [hm]
  · rw [if_neg hm]
    simp [List.nodup_append, h, hm]

theorem alook_eq_of_mem_nodup {l : List (α × β)} (h : (akeys l).Nodup) {k : α} {v : β}
    (hm : (k, v) ∈ l) : alook l k = some v := by
  induction l with
  | nil => simp at hm
  | cons kv rest ih =>
    simp only [akeys, List.map_cons, List.nodup_cons] at h
    rcases List.mem_cons.1 hm with h1 | h1
    · rw [← h1]; simp [alook]
    · have hk : k ≠ kv.1 := by
        rintro rfl
        exact h.1 (by simpa [akeys] using List.mem_map_of_mem Prod.fst h1)
      simp [alook, hk, ih h.2 h1]

theorem mem_of_alook_eq_some {l : List (α × β)} {k : α} {v : β}
    (h : alook l k = some v) : (k, v) ∈ l := by
  induction l with
  | nil => simp [alook] at h
  | cons kv rest ih =>
    by_cases hk : k = kv.1
    · simp [alook, hk] at h
      subst hk; rw [← h]
      exact List.mem_cons_self _ _
    · simp [alook, hk] at h
      exact List.mem_cons_of_mem _ (ih h)

theorem alook_map_const (l : List (α × β)) (c : γ) (k : α) :
    alook (l.map (fun kv => (kv.1, c))) k = if k ∈ akeys l then some c else none := by
  induction l with
  | nil => simp [alook, akeys]
  | cons kv rest ih =>
    by_cases hk : k = kv.1
    · simp [alook, hk, akeys_cons]
    · rw [show alook (List.map (fun kv => (kv.1, c)) (kv :: rest)) k
          = alook (List.map (fun kv => (kv.1, c)) rest) k from by simp [alook, hk]]
      rw [ih, akeys_cons]
      simp [hk]

theorem akeys_map_const (l : List (α × β)) (c : γ) :
    akeys (l.map (fun kv => (kv.1, c))) = akeys l := by
  induction l with
  | nil => rfl
  | cons kv rest ih =>
    rw [List.map_cons, akeys_cons, akeys_cons, ih]

end RenderSandbox

namespace RenderSandbox

/-! ## Lemmas: writers / readers collection -/

theorem alookD_apush_self {α β : Type} [DecidableEq α] (l : List (α × List β)) (k : α)
    (v : β) : alookD (apush l k v) k = alookD l k ++ [v] := by
  unfold alookD
  rw [alook_apush_self]
  rfl

theorem alookD_apush_ne {α β : Type} [DecidableEq α] (l : List (α × List β)) {k k' : α}
    (v : β) (h : k' ≠ k) : alookD (apush l k v) k' = alookD l k' := by
  unfold alookD
  rw [alook_apush_ne _ _ h]

theorem mem_pushDecls (pred : ResourceUsage → Bool) (pid : PassId)
    (ds : List ResourceDeclaration) (acc : List (ResourceId × List PassId))
    (res : ResourceId) (p : PassId) :
    p ∈ alookD (pushDecls pred pid ds acc) res ↔
      p ∈ alookD acc res ∨ (p = pid ∧ ∃ d ∈ ds, d.id = res ∧ pred d.usage = true) := by
  induction ds generalizing acc with
  | nil => simp [pushDecls]
  | cons d ds ih =>
    rw [show pushDecls pred pid (d :: ds) acc
        = pushDecls pred pid ds (if pred d.usage then apush acc d.id pid else acc) from rfl]
    rw [ih]
    have hsplit : (∃ d' ∈ d :: ds, d'.id = res ∧ pred d'.usage = true) ↔
        ((d.id = res ∧ pred d.usage = true) ∨ ∃ d' ∈ ds, d'.id = res ∧ pred d'.usage = true) := by
      constructor
      · rintro ⟨d', hd', hx⟩
        rcases List.mem_cons.1 hd' with rfl | hd2
        · exact Or.inl hx
        · exact Or.inr ⟨d', hd2, hx⟩
      · rintro (hx | ⟨d', hd', hx⟩)
        · exact ⟨d, List.mem_cons_self _ _, hx⟩
        · exact ⟨d', List.mem_cons_of_mem _ hd', hx⟩
    rw [hsplit]
    by_cases hp : pred d.usage
    · by_cases hres : d.id = res
      · rw [if_pos hp, hres, alookD_apush_self]
        simp only [List.mem_append, List.mem_singleton, hres, hp]
        tauto
      · rw [if_pos hp, alookD_apush_ne _ _ (fun hc => hres hc.symm)]
        simp only [hres, false_and]
        tauto
    · rw [if_neg hp]
      have hp' : (pred d.usage = true) = False := by simp [hp]
      simp only [hp', and_false, false_or]

theorem pushDecls_akeys_nodup (pred : ResourceUsage → Bool) (pid : PassId)
    (ds : List ResourceDeclaration) {acc : List (ResourceId × List PassId)}
    (h : (akeys acc).Nodup) : (akeys (pushDecls pred pid ds acc)).Nodup := by
  induction ds generalizing acc with
  | nil => simpa [pushDecls]
  | cons d ds ih =>
    rw [show pushDecls pred pid (d :: ds) acc
        = pushDecls pred pid ds (if pred d.usage then apush acc d.id pid else acc) from rfl]
    apply ih
    by_cases hp : pred d.usage
    · rw [if_pos hp]; exact akeys_apush_nodup h
    · rwa [if_neg hp]

theorem mem_buildWR (pred : ResourceUsage → Bool)
    (l : List (PassId × List ResourceDeclaration))
    (acc : List (ResourceId × List PassId)) (res : ResourceId) (p : PassId) :
    p ∈ alookD (buildWR pred l acc) res ↔
      p ∈ alookD acc res ∨
        ∃ ds, (p, ds) ∈ l ∧ ∃ d ∈ ds, d.id = res ∧ pred d.usage = true := by
  induction l generalizing acc with
  | nil => simp [buildWR]
  | cons kv rest ih =>
    obtain ⟨pid, ds⟩ := kv
    rw [show buildWR pred ((pid, ds) :: rest) acc
        = buildWR pred rest (pushDecls pred pid ds acc) from rfl]
    rw [ih, mem_pushDecls]
    constructor
    · rintro ((h1 | ⟨rfl, d', hd', hid, hu⟩) | ⟨ds', hds', hx⟩)
      · exact Or.inl h1
      · exact Or.inr ⟨ds, List.mem_cons_self _ _, d', hd', hid, hu⟩
      · exact Or.inr ⟨ds', List.mem_cons_of_mem _ hds', hx⟩
    · rintro (h1 | ⟨ds', hds', hx⟩)
      · exact Or.inl (Or.inl h1)
      · rcases List.mem_cons.1 hds' with h2 | h2
        · injection h2 with h2a h2b
          subst h2a
          subst h2b
          exact Or.inl (Or.inr ⟨rfl, hx⟩)
        · exact Or.inr ⟨ds', h2, hx⟩

theorem buildWR_akeys_nodup (pred : ResourceUsage → Bool)
    (l : List (PassId × List ResourceDeclaration))
    {acc : List (ResourceId × List PassId)} (h : (akeys acc).Nodup) :
    (akeys (buildWR pred l acc)).Nodup := by
  induction l generalizing acc with
  | nil => simpa [buildWR]
  | cons kv rest ih =>
    obtain ⟨pid, ds⟩ := kv
    exact ih (pushDecls_akeys_nodup pred pid ds h)

theorem mem_writersOfL {π : Type} (g : RenderGraph π) (res : ResourceId) (p : PassId) :
    p ∈ g.writersOfL res ↔
      ∃ ds, (p, ds) ∈ g.resource_declarations ∧
        ∃ d ∈ ds, d.id = res ∧ d.usage.isWriteLike = true := by
  unfold RenderGraph.writersOfL RenderGraph.writersMap
  rw [mem_buildWR]
  simp [alookD, alook]

theorem mem_readersOfL {π : Type} (g : RenderGraph π) (res : ResourceId) (p : PassId) :
    p ∈ g.readersOfL res ↔
      ∃ ds, (p, ds) ∈ g.resource_declarations ∧
        ∃ d ∈ ds, d.id = res ∧ d.usage.isReadLike = true := by
  unfold RenderGraph.readersOfL RenderGraph.readersMap
  rw [mem_buildWR]
  simp [alookD, alook]

theorem writersMap_akeys_nodup {π : Type} (g : RenderGraph π) :
    (akeys g.writersMap).Nodup :=
  buildWR_akeys_nodup _ _ (by simp [akeys])

theorem readersMap_akeys_nodup {π : Type} (g : RenderGraph π) :
    (akeys g.readersMap).Nodup :=
  buildWR_akeys_nodup _ _ (by simp [akeys])

theorem mem_akeys_of_mem_assoc {κ β : Type} {l : List (κ × β)} {k : κ} {v : β}
    (h : (k, v) ∈ l) : k ∈ akeys l := by
  unfold akeys
  exact List.mem_map_of_mem Prod.fst h

theorem writersOfL_sub_keys {π : Type} {g : RenderGraph π} {res : ResourceId} {p : PassId}
    (h : p ∈ g.writersOfL res) : p ∈ akeys g.resource_declarations := by
  obtain ⟨ds, hds, -⟩ := (mem_writersOfL g res p).1 h
  exact mem_akeys_of_mem_assoc hds

theorem readersOfL_sub_keys {π : Type} {g : RenderGraph π} {res : ResourceId} {p : PassId}
    (h : p ∈ g.readersOfL res) : p ∈ akeys g.resource_declarations := by
  obtain ⟨ds, hds, -⟩ := (mem_readersOfL g res p).1 h
  exact mem_akeys_of_mem_assoc hds

theorem writesRes_iff {π : Type} (g : RenderGraph π)
    (h : (akeys g.resource_declarations).Nodup) (p : PassId) (res : ResourceId) :
    g.writesRes p res ↔ p ∈ g.writersOfL res := by
  rw [mem_writersOfL]
  constructor
  · rintro ⟨ds, hds, hx⟩
    exact ⟨ds, mem_of_alook_eq_some hds, hx⟩
  · rintro ⟨ds, hds, hx⟩
    exact ⟨ds, alook_eq_of_mem_nodup h hds, hx⟩

theorem readsRes_iff {π : Type} (g : RenderGraph π)
    (h : (akeys g.resource_declarations).Nodup) (p : PassId) (res : ResourceId) :
    g.readsRes p res ↔ p ∈ g.readersOfL res := by
  rw [mem_readersOfL]
  constructor
  · rintro ⟨ds, hds, hx⟩
    exact ⟨ds, mem_of_alook_eq_some hds, hx⟩
  · rintro ⟨ds, hds, hx⟩
    exact ⟨ds, alook_eq_of_mem_nodup h hds, hx⟩

end RenderSandbox

namespace RenderSandbox

/-! ## Lemmas: dependency-edge construction -/

theorem akeys_insertWriters (r : PassId) (ws : List PassId)
    (dm : List (PassId × List PassId)) : akeys (insertWriters r ws dm) = akeys dm := by
  induction ws generalizing dm with
  | nil => rfl
  | cons w ws ih =>
    rw [show insertWriters r (w :: ws) dm
        = insertWriters r ws (if r = w then dm else amod dm r (fun s => sinsert s w)) from rfl]
    rw [ih]
    by_cases hw : r = w
    · rw [if_pos hw]
    · rw [if_neg hw, akeys_amod]

theorem mem_insertWriters (r : PassId) (ws : List PassId)
    (dm : List (PassId × List PassId)) (p q : PassId) :
    q ∈ alookD (insertWriters r ws dm) p ↔
      q ∈ alookD dm p ∨ (p = r ∧ p ∈ akeys dm ∧ q ∈ ws ∧ q ≠ r) := by
  induction ws generalizing dm with
  | nil => simp [insertWriters]
  | cons w ws ih =>
    rw [show insertWriters r (w :: ws) dm
        = insertWriters r ws (if r = w then dm else amod dm r (fun s => sinsert s w)) from rfl]
    rw [ih]
    by_cases hw : r = w
    · rw [if_pos hw]
      constructor
      · rintro (h1 | ⟨rfl, hk, hq, hne⟩)
        · exact Or.inl h1
        · exact Or.inr ⟨rfl, hk, List.mem_cons_of_mem _ hq, hne⟩
      · rintro (h1 | ⟨rfl, hk, hq, hne⟩)
        · exact Or.inl h1
        · rcases List.mem_cons.1 hq with rfl | hq2
          · exact absurd hw.symm hne
          · exact Or.inr ⟨rfl, hk, hq2, hne⟩
    · rw [if_neg hw, akeys_amod]
      have hstep : ∀ p', q ∈ alookD (amod dm r (fun s => sinsert s w)) p' ↔
          q ∈ alookD dm p' ∨ (p' = r ∧ p' ∈ akeys dm ∧ q = w) := by
        intro p'
        by_cases hp : p' = r
        · subst hp
          unfold alookD
          rw [alook_amod_self]
          cases hl : alook dm p' with
          | none =>
            have : p' ∉ akeys dm := fun hc => by
              obtain ⟨v, hv⟩ := alook_isSome_of_mem hc
              rw [hl] at hv; cases hv
            simp [this]
          | some l =>
            have hk : p' ∈ akeys dm := mem_akeys_of_alook hl
            rw [show (Option.map (fun s => sinsert s w) (some l)).getD [] = sinsert l w from
              rfl]
            rw [mem_sinsert]
            constructor
            · rintro (rfl | hq)
              · exact Or.inr ⟨rfl, hk, rfl⟩
              · exact Or.inl hq
            · rintro (hq | ⟨-, -, rfl⟩)
              · exact Or.inr hq
              · exact Or.inl rfl
        · unfold alookD
          rw [alook_amod_ne _ _ hp]
          simp [hp]
      rw [hstep]
      constructor
      · rintro ((h1 | ⟨rfl, hk, rfl⟩) | ⟨rfl, hk, hq, hne⟩)
        · exact Or.inl h1
        · exact Or.inr ⟨rfl, hk, List.mem_cons_self _ _, fun hc => hw hc.symm⟩
        · exact Or.inr ⟨rfl, hk, List.mem_cons_of_mem _ hq, hne⟩
      · rintro (h1 | ⟨rfl, hk, hq, hne⟩)
        · exact Or.inl (Or.inl h1)
        · rcases List.mem_cons.1 hq with rfl | hq2
          · exact Or.inl (Or.inr ⟨rfl, hk, rfl⟩)
          · exact Or.inr ⟨rfl, hk, hq2, hne⟩

theorem akeys_addEdgesFor (ws rs : List PassId) (dm : List (PassId × List PassId)) :
    akeys (addEdgesFor ws rs dm) = akeys dm := by
  induction rs generalizing dm with
  | nil => rfl
  | cons r rs ih =>
    rw [show addEdgesFor ws (r :: rs) dm = addEdgesFor ws rs (insertWriters r ws dm) from rfl]
    rw [ih, akeys_insertWriters]

theorem mem_addEdgesFor (ws rs : List PassId) (dm : List (PassId × List PassId))
    (p q : PassId) :
    q ∈ alookD (addEdgesFor ws rs dm) p ↔
      q ∈ alookD dm p ∨ (p ∈ rs ∧ p ∈ akeys dm ∧ q ∈ ws ∧ q ≠ p) := by
  induction rs generalizing dm with
  | nil => simp [addEdgesFor]
  | cons r rs ih =>
    rw [show addEdgesFor ws (r :: rs) dm = addEdgesFor ws rs (insertWriters r ws dm) from rfl]
    rw [ih, mem_insertWriters, akeys_insertWriters]
    constructor
    · rintro ((h1 | ⟨rfl, hk, hq, hne⟩) | ⟨hr, hk, hq, hne⟩)
      · exact Or.inl h1
      · exact Or.inr ⟨List.mem_cons_self _ _, hk, hq, hne⟩
      · exact Or.inr ⟨List.mem_cons_of_mem _ hr, hk, hq, hne⟩
    · rintro (h1 | ⟨hr, hk, hq, hne⟩)
      · exact Or.inl (Or.inl h1)
      · rcases List.mem_cons.1 hr with rfl | hr2
        · exact Or.inl (Or.inr ⟨rfl, hk, hq, hne⟩)
        · exact Or.inr ⟨hr2, hk, hq, hne⟩

theorem akeys_addEdges (wm rl : List (ResourceId × List PassId))
    (dm : List (PassId × List PassId)) : akeys (addEdges wm rl dm) = akeys dm := by
  induction rl generalizing dm with
  | nil => rfl
  | cons e rest ih =>
    obtain ⟨res, rs⟩ := e
    rw [show addEdges wm ((res, rs) :: rest) dm
        = addEdges wm rest (match alook wm res with
            | none => dm
            | some ws => addEdgesFor ws rs dm) from rfl]
    cases hres : alook wm res with
    | none => simp only [hres]; rw [ih]
    | some ws => simp only [hres]; rw [ih, akeys_addEdgesFor]

theorem mem_addEdges (wm rl : List (ResourceId × List PassId))
    (dm : List (PassId × List PassId)) (p q : PassId) :
    q ∈ alookD (addEdges wm rl dm) p ↔
      q ∈ alookD dm p ∨
        ∃ res rs ws, (res, rs) ∈ rl ∧ alook wm res = some ws ∧
          p ∈ rs ∧ p ∈ akeys dm ∧ q ∈ ws ∧ q ≠ p := by
  induction rl generalizing dm with
  | nil => simp [addEdges]
  | cons e rest ih =>
    obtain ⟨res, rs⟩ := e
    rw [show addEdges wm ((res, rs) :: rest) dm
        = addEdges wm rest (match alook wm res with
            | none => dm
            | some ws => addEdgesFor ws rs dm) from rfl]
    cases hres : alook wm res with
    | none =>
      simp only [hres]
      rw [ih]
      constructor
      · rintro (h1 | ⟨res', rs', ws', hrl, hwm, hx⟩)
        · exact Or.inl h1
        · exact Or.inr ⟨res', rs', ws', List.mem_cons_of_mem _ hrl, hwm, hx⟩
      · rintro (h1 | ⟨res', rs', ws', hrl, hwm, hx⟩)
        · exact Or.inl h1
        · rcases List.mem_cons.1 hrl with h2 | h2
          · injection h2 with h2a h2b
            subst h2a
            rw [hres] at hwm
            cases hwm
          · exact Or.inr ⟨res', rs', ws', h2, hwm, hx⟩
    | some ws =>
      simp only [hres]
      rw [ih, mem_addEdgesFor, akeys_addEdgesFor]
      constructor
      · rintro ((h1 | ⟨hr, hk, hq, hne⟩) | ⟨res', rs', ws', hrl, hwm, hx⟩)
        · exact Or.inl h1
        · exact Or.inr ⟨res, rs, ws, List.mem_cons_self _ _, hres, hr, hk, hq, hne⟩
        · exact Or.inr ⟨res', rs', ws', List.mem_cons_of_mem _ hrl, hwm, hx⟩
      · rintro (h1 | ⟨res', rs', ws', hrl, hwm, hx⟩)
        · exact Or.inl (Or.inl h1)
        · rcases List.mem_cons.1 hrl with h2 | h2
          · injection h2 with h2a h2b
            subst h2a
            subst h2b
            rw [hres] at hwm
            injection hwm with h3
            subst h3
            exact Or.inl (Or.inr hx)
          · exact Or.inr ⟨res', rs', ws', h2, hwm, hx⟩

theorem alookD_depsInit {π : Type} (g : RenderGraph π) (p : PassId) :
    alookD g.depsInit p = [] := by
  unfold RenderGraph.depsInit alookD
  rw [alook_map_const]
  by_cases h : p ∈ akeys g.resource_declarations <;> simp [h]

theorem akeys_depsMap {π : Type} (g : RenderGraph π) :
    akeys g.depsMap = akeys g.resource_declarations := by
  unfold RenderGraph.depsMap
  rw [akeys_addEdges]
  unfold RenderGraph.depsInit
  exact akeys_map_const _ _

/-- The dependency-set characterization: a pass depends exactly on the other
passes that write a resource it reads; resources with no declared writer
contribute nothing. -/
theorem mem_depsOf {π : Type} (g : RenderGraph π) (p q : PassId) :
    q ∈ g.depsOf p ↔ q ≠ p ∧ ∃ res, q ∈ g.writersOfL res ∧ p ∈ g.readersOfL res := by
  unfold RenderGraph.depsOf RenderGraph.depsMap
  rw [mem_addEdges, alookD_depsInit]
  simp only [List.not_mem_nil, false_or]
  constructor
  · rintro ⟨res, rs, ws, hrl, hwm, hprs, hk, hqws, hne⟩
    refine ⟨hne, res, ?_, ?_⟩
    · unfold RenderGraph.writersOfL alookD
      rw [hwm]
      exact hqws
    · unfold RenderGraph.readersOfL alookD
      rw [alook_eq_of_mem_nodup (readersMap_akeys_nodup g) hrl]
      exact hprs
  · rintro ⟨hne, res, hqw, hpr⟩
    have hpk : p ∈ akeys g.resource_declarations := readersOfL_sub_keys hpr
    unfold RenderGraph.readersOfL alookD at hpr
    unfold RenderGraph.writersOfL alookD at hqw
    cases hrm : alook g.readersMap res with
    | none => rw [hrm] at hpr; simp at hpr
    | some rs =>
      cases hwm : alook g.writersMap res with
      | none => rw [hwm] at hqw; simp at hqw
      | some ws =>
        rw [hrm] at hpr
        rw [hwm] at hqw
        refine ⟨res, rs, ws, mem_of_alook_eq_some hrm, hwm, hpr, ?_, hqw, hne⟩
        unfold RenderGraph.depsInit
        rwa [akeys_map_const]

theorem depsOf_irrefl {π : Type} (g : RenderGraph π) (p : PassId) : p ∉ g.depsOf p := by
  intro h
  exact ((mem_depsOf g p p).1 h).1 rfl

theorem depsOf_sub_keys {π : Type} {g : RenderGraph π} {p q : PassId}
    (h : q ∈ g.depsOf p) :
    p ∈ akeys g.resource_declarations ∧ q ∈ akeys g.resource_declarations := by
  obtain ⟨-, res, hq, hp⟩ := (mem_depsOf g p q).1 h
  exact ⟨readersOfL_sub_keys hp, writersOfL_sub_keys hq⟩

theorem alookD_insertWriters_nodup (r : PassId) (ws : List PassId)
    (dm : List (PassId × List PassId)) (h : ∀ p, (alookD dm p).Nodup) (p : PassId) :
    (alookD (insertWriters r ws dm) p).Nodup := by
  induction ws generalizing dm with
  | nil => exact h p
  | cons w ws ih =>
    rw [show insertWriters r (w :: ws) dm
        = insertWriters r ws (if r = w then dm else amod dm r (fun s => sinsert s w)) from rfl]
    apply ih
    intro p'
    by_cases hw : r = w
    · rw [if_pos hw]; exact h p'
    · rw [if_neg hw]
      by_cases hp : p' = r
      · subst hp
        unfold alookD
        rw [alook_amod_self]
        cases hl : alook dm p' with
        | none => simp
        | some l =>
          have hn := h p'
          unfold alookD at hn
          rw [hl] at hn
          simpa using sinsert_nodup (by simpa using hn)
      · unfold alookD
        rw [alook_amod_ne _ _ hp]
        have hn := h p'
        unfold alookD at hn
        exact hn

theorem alookD_addEdgesFor_nodup (ws rs : List PassId)
    (dm : List (PassId × List PassId)) (h : ∀ p, (alookD dm p).Nodup) (p : PassId) :
    (alookD (addEdgesFor ws rs dm) p).Nodup := by
  induction rs generalizing dm with
  | nil => exact h p
  | cons r rs ih =>
    rw [show addEdgesFor ws (r :: rs) dm = addEdgesFor ws rs (insertWriters r ws dm) from rfl]
    exact ih _ (alookD_insertWriters_nodup r ws dm h)

theorem alookD_addEdges_nodup (wm rl : List (ResourceId × List PassId))
    (dm : List (PassId × List PassId)) (h : ∀ p, (alookD dm p).Nodup) (p : PassId) :
    (alookD (addEdges wm rl dm) p).Nodup := by
  induction rl generalizing dm with
  | nil => exact h p
  | cons e rest ih =>
    obtain ⟨res, rs⟩ := e
    rw [show addEdges wm ((res, rs) :: rest) dm
        = addEdges wm rest (match alook wm res with
            | none => dm
            | some ws => addEdgesFor ws rs dm) from rfl]
    cases hres : alook wm res with
    | none =>
      simp only [hres]
      exact ih dm h
    | some ws =>
      simp only [hres]
      exact ih _ (alookD_addEdgesFor_nodup ws rs dm h)

/-- Values of the dependency map are duplicate-free (`HashSet` semantics). -/
theorem depsOf_nodup {π : Type} (g : RenderGraph π) (p : PassId) : (g.depsOf p).Nodup := by
  unfold RenderGraph.depsOf RenderGraph.depsMap
  exact alookD_addEdges_nodup _ _ _ (fun p' => by rw [alookD_depsInit]; exact List.nodup_nil) p

end RenderSandbox

namespace RenderSandbox

/-! ## Lemmas: in-degree and adjacency construction -/

theorem addDepEntry_fst_akeys (dep : PassId) (qs : List PassId)
    (s : List (PassId × Nat) × List (PassId × List PassId)) :
    akeys (addDepEntry dep qs s).1 = akeys s.1 := by
  induction qs generalizing s with
  | nil => rfl
  | cons q qs ih =>
    obtain ⟨ind, adj⟩ := s
    rw [show addDepEntry dep (q :: qs) (ind, adj)
        = addDepEntry dep qs (amod ind dep (fun d => d + 1), amod adj q (fun l => l ++ [dep]))
        from rfl]
    rw [ih]
    exact akeys_amod _ _ _

theorem addDepEntry_snd_akeys (dep : PassId) (qs : List PassId)
    (s : List (PassId × Nat) × List (PassId × List PassId)) :
    akeys (addDepEntry dep qs s).2 = akeys s.2 := by
  induction qs generalizing s with
  | nil => rfl
  | cons q qs ih =>
    obtain ⟨ind, adj⟩ := s
    rw [show addDepEntry dep (q :: qs) (ind, adj)
        = addDepEntry dep qs (amod ind dep (fun d => d + 1), amod adj q (fun l => l ++ [dep]))
        from rfl]
    rw [ih]
    exact akeys_amod _ _ _

theorem addDepEntry_fst_alook (dep : PassId) (qs : List PassId)
    (ind : List (PassId × Nat)) (adj : List (PassId × List PassId)) (p : PassId) :
    alook (addDepEntry dep qs (ind, adj)).1 p =
      if p = dep then (alook ind p).map (fun d => d + qs.length) else alook ind p := by
  induction qs generalizing ind adj with
  | nil =>
    by_cases hp : p = dep
    · rw [if_pos hp]
      cases h : alook ind p <;> simp [addDepEntry, h]
    · rw [if_neg hp]
      rfl
  | cons q qs ih =>
    rw [show addDepEntry dep (q :: qs) (ind, adj)
        = addDepEntry dep qs (amod ind dep (fun d => d + 1), amod adj q (fun l => l ++ [dep]))
        from rfl]
    rw [ih]
    by_cases hp : p = dep
    · rw [if_pos hp, if_pos hp]
      subst hp
      rw [alook_amod_self]
      cases h : alook ind p with
      | none => simp
      | some d =>
        show some (d + 1 + qs.length) = some (d + (qs.length + 1))
        congr 1
        omega
    · rw [if_neg hp, if_neg hp]
      exact alook_amod_ne _ _ hp

theorem addDepEntry_snd_alook (dep : PassId) (qs : List PassId)
    (ind : List (PassId × Nat)) (adj : List (PassId × List PassId)) (a : PassId)
    (hq : qs.Nodup) :
    alook (addDepEntry dep qs (ind, adj)).2 a =
      (alook adj a).map (fun l => if a ∈ qs then l ++ [dep] else l) := by
  induction qs generalizing ind adj with
  | nil =>
    cases h : alook adj a <;> simp [addDepEntry, h]
  | cons q qs ih =>
    rw [show addDepEntry dep (q :: qs) (ind, adj)
        = addDepEntry dep qs (amod ind dep (fun d => d + 1), amod adj q (fun l => l ++ [dep]))
        from rfl]
    rw [List.nodup_cons] at hq
    rw [ih _ _ hq.2]
    by_cases ha : a = q
    · subst ha
      rw [alook_amod_self]
      have hnot : a ∉ qs := hq.1
      cases h : alook adj a with
      | none => simp
      | some l =>
        have hmem : a ∈ a :: qs := List.mem_cons_self _ _
        simp [hnot, hmem]
    · rw [alook_amod_ne _ _ ha]
      cases h : alook adj a with
      | none => rfl
      | some l =>
        by_cases hm : a ∈ qs
        · have hm2 : a ∈ q :: qs := List.mem_cons_of_mem _ hm
          simp [hm, hm2]
        · have hm2 : a ∉ q :: qs := by
            simp [List.mem_cons, ha, hm]
          simp [hm, hm2]

theorem buildIndAdj_fst_akeys (ds : List (PassId × List PassId))
    (s : List (PassId × Nat) × List (PassId × List PassId)) :
    akeys (buildIndAdj ds s).1 = akeys s.1 := by
  induction ds generalizing s with
  | nil => rfl
  | cons e rest ih =>
    obtain ⟨dep, qs⟩ := e
    rw [show buildIndAdj ((dep, qs) :: rest) s = buildIndAdj rest (addDepEntry dep qs s)
        from rfl]
    rw [ih, addDepEntry_fst_akeys]

theorem buildIndAdj_snd_akeys (ds : List (PassId × List PassId))
    (s : List (PassId × Nat) × List (PassId × List PassId)) :
    akeys (buildIndAdj ds s).2 = akeys s.2 := by
  induction ds generalizing s with
  | nil => rfl
  | cons e rest ih =>
    obtain ⟨dep, qs⟩ := e
    rw [show buildIndAdj ((dep, qs) :: rest) s = buildIndAdj rest (addDepEntry dep qs s)
        from rfl]
    rw [ih, addDepEntry_snd_akeys]

theorem buildIndAdj_fst_alook (ds : List (PassId × List PassId))
    (ind : List (PassId × Nat)) (adj : List (PassId × List PassId)) (p : PassId)
    (hk : (akeys ds).Nodup) :
    alook (buildIndAdj ds (ind, adj)).1 p =
      (alook ind p).map (fun d => d + (alookD ds p).length) := by
  induction ds generalizing ind adj with
  | nil =>
    cases h : alook ind p <;> simp [buildIndAdj, alookD, alook, h]
  | cons e rest ih =>
    obtain ⟨dep, qs⟩ := e
    rw [show buildIndAdj ((dep, qs) :: rest) (ind, adj)
        = buildIndAdj rest (addDepEntry dep qs (ind, adj)) from rfl]
    rw [akeys_cons, List.nodup_cons] at hk
    have hpair : addDepEntry dep qs (ind, adj)
        = ((addDepEntry dep qs (ind, adj)).1, (addDepEntry dep qs (ind, adj)).2) := rfl
    rw [hpair, ih _ _ hk.2, addDepEntry_fst_alook]
    by_cases hp : p = dep
    · subst hp
      have habs : alook rest p = none := by
        apply alook_of_not_mem_akeys
        exact hk.1
      have h1 : alookD rest p = [] := by
        unfold alookD
        rw [habs]
        rfl
      have h2 : alookD ((p, qs) :: rest) p = qs := by
        unfold alookD
        rw [show alook ((p, qs) :: rest) p = some qs from by simp [alook]]
        rfl
      rw [if_pos rfl, h1, h2]
      cases h : alook ind p <;> simp [h]
    · have h2 : alookD ((dep, qs) :: rest) p = alookD rest p := by
        unfold alookD
        rw [show alook ((dep, qs) :: rest) p = alook rest p from by simp [alook, hp]]
      rw [if_neg hp, h2]

theorem buildIndAdj_snd_alook (ds : List (PassId × List PassId))
    (ind : List (PassId × Nat)) (adj : List (PassId × List PassId)) (a : PassId)
    (hv : ∀ kv ∈ ds, kv.2.Nodup) :
    alook (buildIndAdj ds (ind, adj)).2 a =
      (alook adj a).map
        (fun l => l ++ (ds.filter (fun kv => decide (a ∈ kv.2))).map Prod.fst) := by
  induction ds generalizing ind adj with
  | nil =>
    cases h : alook adj a <;> simp [buildIndAdj, h]
  | cons e rest ih =>
    obtain ⟨dep, qs⟩ := e
    rw [show buildIndAdj ((dep, qs) :: rest) (ind, adj)
        = buildIndAdj rest (addDepEntry dep qs (ind, adj)) from rfl]
    have hpair : addDepEntry dep qs (ind, adj)
        = ((addDepEntry dep qs (ind, adj)).1, (addDepEntry dep qs (ind, adj)).2) := rfl
    have hqs : qs.Nodup := by
      have := hv (dep, qs) (List.mem_cons_self _ _)
      exact this
    have hv' : ∀ kv ∈ rest, kv.2.Nodup := fun kv hkv => hv kv (List.mem_cons_of_mem _ hkv)
    rw [hpair, ih _ _ hv', addDepEntry_snd_alook _ _ _ _ _ hqs]
    by_cases ha : a ∈ qs
    · rw [show (List.filter (fun kv => decide (a ∈ kv.2)) ((dep, qs) :: rest))
          = (dep, qs) :: List.filter (fun kv => decide (a ∈ kv.2)) rest from by
        simp [List.filter, ha]]
      cases alook adj a with
      | none => simp
      | some l => simp [ha]
    · rw [show (List.filter (fun kv => decide (a ∈ kv.2)) ((dep, qs) :: rest))
          = List.filter (fun kv => decide (a ∈ kv.2)) rest from by
        simp [List.filter, ha]]
      cases alook adj a with
      | none => simp
      | some l => simp [ha]

end RenderSandbox

namespace RenderSandbox

/-! ## Lemmas: the decrement/enqueue steps of Kahn's loop -/

theorem bump_fst_akeys (l : List (PassId × Nat)) (nb : PassId) :
    akeys (bump l nb).1 = akeys l := by
  induction l with
  | nil => rfl
  | cons kv rest ih =>
    obtain ⟨k, d⟩ := kv
    by_cases h : nb = k
    · simp [bump, h, akeys_cons]
    · simp only [bump, if_neg h]
      rw [akeys_cons, akeys_cons, ih]

theorem bump_fst_alook_self (l : List (PassId × Nat)) (nb : PassId) :
    alook (bump l nb).1 nb = (alook l nb).map (fun d => d - 1) := by
  induction l with
  | nil => simp [bump, alook]
  | cons kv rest ih =>
    obtain ⟨k, d⟩ := kv
    by_cases h : nb = k
    · simp [bump, h, alook]
    · simp only [bump, if_neg h]
      rw [show alook ((k, d) :: (bump rest nb).1) nb = alook (bump rest nb).1 nb from by
        simp [alook, h]]
      rw [show alook ((k, d) :: rest) nb = alook rest nb from by simp [alook, h]]
      exact ih

theorem bump_fst_alook_ne (l : List (PassId × Nat)) {nb p : PassId} (h : p ≠ nb) :
    alook (bump l nb).1 p = alook l p := by
  induction l with
  | nil => simp [bump]
  | cons kv rest ih =>
    obtain ⟨k, d⟩ := kv
    by_cases hk : nb = k
    · subst hk
      simp [bump, alook, h]
    · simp only [bump, if_neg hk]
      by_cases hp : p = k
      · simp [alook, hp]
      · rw [show alook ((k, d) :: (bump rest nb).1) p = alook (bump rest nb).1 p from by
          simp [alook, hp]]
        rw [show alook ((k, d) :: rest) p = alook rest p from by simp [alook, hp]]
        exact ih

theorem bump_snd (l : List (PassId × Nat)) (nb : PassId) :
    (bump l nb).2 = decide (alook l nb = some 1) := by
  induction l with
  | nil => simp [bump, alook]
  | cons kv rest ih =>
    obtain ⟨k, d⟩ := kv
    by_cases h : nb = k
    · simp [bump, h, alook]
    · simp only [bump, if_neg h]
      rw [show alook ((k, d) :: rest) nb = alook rest nb from by simp [alook, h]]
      exact ih

theorem bump_degSum_le (l : List (PassId × Nat)) (nb : PassId) :
    degSum (bump l nb).1 ≤ degSum l := by
  induction l with
  | nil => simp [bump]
  | cons kv rest ih =>
    obtain ⟨k, d⟩ := kv
    by_cases h : nb = k
    · simp only [bump, if_pos h]
      unfold degSum
      simp only [List.map_cons, List.sum_cons]
      have : d - 1 ≤ d := Nat.sub_le _ _
      omega
    · simp only [bump, if_neg h]
      unfold degSum at ih ⊢
      simp only [List.map_cons, List.sum_cons]
      omega

theorem bump_degSum_of_flag (l : List (PassId × Nat)) (nb : PassId)
    (h : (bump l nb).2 = true) : degSum (bump l nb).1 + 1 = degSum l := by
  induction l with
  | nil => simp [bump] at h
  | cons kv rest ih =>
    obtain ⟨k, d⟩ := kv
    by_cases hk : nb = k
    · rw [show bump ((k, d) :: rest) nb = ((k, d - 1) :: rest, decide (d = 1)) from by
        simp [bump, hk]] at h ⊢
      have hd : d = 1 := by simpa using h
      subst hd
      unfold degSum
      simp only [List.map_cons, List.sum_cons]
      omega
    · simp only [bump, if_neg hk] at h ⊢
      unfold degSum at ih ⊢
      simp only [List.map_cons, List.sum_cons]
      have := ih h
      omega

theorem relax_measure_le (nbs : List PassId) (ind : List (PassId × Nat))
    (q : List PassId) :
    (relax nbs ind q).2.length + degSum (relax nbs ind q).1 ≤ q.length + degSum ind := by
  induction nbs generalizing ind q with
  | nil => simp [relax]
  | cons nb rest ih =>
    rw [show relax (nb :: rest) ind q
        = relax rest (bump ind nb).1 (if (bump ind nb).2 then q ++ [nb] else q) from rfl]
    by_cases hf : (bump ind nb).2
    · rw [if_pos hf]
      have h1 := ih (bump ind nb).1 (q ++ [nb])
      have h2 := bump_degSum_of_flag ind nb hf
      simp only [List.length_append, List.length_singleton] at h1
      omega
    · rw [if_neg hf]
      have h1 := ih (bump ind nb).1 q
      have h2 := bump_degSum_le ind nb
      omega

theorem relax_fst_akeys (nbs : List PassId) (ind : List (PassId × Nat)) (q : List PassId) :
    akeys (relax nbs ind q).1 = akeys ind := by
  induction nbs generalizing ind q with
  | nil => rfl
  | cons nb rest ih =>
    rw [show relax (nb :: rest) ind q
        = relax rest (bump ind nb).1 (if (bump ind nb).2 then q ++ [nb] else q) from rfl]
    rw [ih, bump_fst_akeys]

theorem relax_fst_alook (nbs : List PassId) (ind : List (PassId × Nat)) (q : List PassId)
    (p : PassId) (hnd : nbs.Nodup) :
    alook (relax nbs ind q).1 p =
      if p ∈ nbs then (alook ind p).map (fun d => d - 1) else alook ind p := by
  induction nbs generalizing ind q with
  | nil => simp [relax]
  | cons nb rest ih =>
    rw [show relax (nb :: rest) ind q
        = relax rest (bump ind nb).1 (if (bump ind nb).2 then q ++ [nb] else q) from rfl]
    rw [List.nodup_cons] at hnd
    rw [ih _ _ hnd.2]
    by_cases hp : p = nb
    · subst hp
      have hpn : p ∉ rest := hnd.1
      rw [if_neg hpn, if_pos (List.mem_cons_self _ _)]
      exact bump_fst_alook_self ind p
    · by_cases hm : p ∈ rest
      · have hm2 : p ∈ nb :: rest := List.mem_cons_of_mem _ hm
        rw [if_pos hm, if_pos hm2, bump_fst_alook_ne ind hp]
      · have hm2 : p ∉ nb :: rest := by simp [List.mem_cons, hp, hm]
        rw [if_neg hm, if_neg hm2, bump_fst_alook_ne ind hp]

theorem relax_snd (nbs : List PassId) (ind : List (PassId × Nat)) (q : List PassId)
    (hnd : nbs.Nodup) :
    (relax nbs ind q).2 =
      q ++ nbs.filter (fun p => decide (alook ind p = some 1)) := by
  induction nbs generalizing ind q with
  | nil => simp [relax]
  | cons nb rest ih =>
    rw [show relax (nb :: rest) ind q
        = relax rest (bump ind nb).1 (if (bump ind nb).2 then q ++ [nb] else q) from rfl]
    rw [List.nodup_cons] at hnd
    rw [ih _ _ hnd.2]
    have hfilter : rest.filter (fun p => decide (alook (bump ind nb).1 p = some 1))
        = rest.filter (fun p => decide (alook ind p = some 1)) := by
      apply List.filter_congr
      intro p hp
      have hne : p ≠ nb := fun hc => hnd.1 (hc ▸ hp)
      rw [bump_fst_alook_ne ind hne]
    rw [hfilter, bump_snd]
    by_cases hf : alook ind nb = some 1
    · rw [if_pos (by simpa using hf)]
      rw [show (nb :: rest).filter (fun p => decide (alook ind p = some 1))
          = nb :: rest.filter (fun p => decide (alook ind p = some 1)) from by
        simp [List.filter, hf]]
      simp
    · rw [if_neg (by simpa using hf)]
      rw [show (nb :: rest).filter (fun p => decide (alook ind p = some 1))
          = rest.filter (fun p => decide (alook ind p = some 1)) from by
        simp [List.filter, hf]]

end RenderSandbox

namespace RenderSandbox

/-! ## Lemmas: topological-order bookkeeping -/

theorem topoSpec_closed {deps : PassId → List PassId} {l : List PassId}
    (h : topoSpec deps l) {p : PassId} (hp : p ∈ l) {q : PassId} (hq : q ∈ deps p) :
    q ∈ l := by
  obtain ⟨⟨i, hi⟩, rfl⟩ := List.mem_iff_get.1 hp
  exact List.take_subset i l (h i hi q hq)

theorem topoSpec_append {deps : PassId → List PassId} {l : List PassId} {c : PassId}
    (h : topoSpec deps l) (hc : ∀ q ∈ deps c, q ∈ l) : topoSpec deps (l ++ [c]) := by
  intro i hi q hq
  have hlen : (l ++ [c]).length = l.length + 1 := by simp
  rw [hlen] at hi
  rcases Nat.lt_succ_iff_lt_or_eq.1 hi with hlt | heq
  · have hget : (l ++ [c]).get ⟨i, by simpa [hlen] using hi⟩ = l.get ⟨i, hlt⟩ :=
      List.get_append i hlt
    rw [hget] at hq
    have htake : (l ++ [c]).take i = l.take i :=
      List.take_append_of_le_length (Nat.le_of_lt hlt)
    rw [htake]
    exact h i hlt q hq
  · subst heq
    have hget : (l ++ [c]).get ⟨l.length, by simpa [hlen] using hi⟩ = c := by
      simp
    rw [hget] at hq
    have htake : (l ++ [c]).take l.length = l :=
      List.take_append_of_le_length (Nat.le_refl _) ▸ by simp
    rw [htake]
    exact hc q hq

theorem filter_same_of_not_mem {l s : List PassId} {c : PassId} (hc : c ∉ l) :
    l.filter (fun q => decide (¬ q ∈ (s ++ [c]))) = l.filter (fun q => decide (¬ q ∈ s)) := by
  apply List.filter_congr
  intro x hx
  have hxc : x ≠ c := fun hcx => hc (hcx ▸ hx)
  simp [List.mem_append, hxc]

theorem filter_remove_count {l s : List PassId} {c : PassId} (hnd : l.Nodup) (hcl : c ∈ l)
    (hcs : ¬ c ∈ s) :
    (l.filter (fun q => decide (¬ q ∈ (s ++ [c])))).length + 1
      = (l.filter (fun q => decide (¬ q ∈ s))).length := by
  induction l with
  | nil => simp at hcl
  | cons x rest ih =>
    rw [List.nodup_cons] at hnd
    by_cases hx : x = c
    · subst hx
      have hrest : x ∉ rest := hnd.1
      rw [show (x :: rest).filter (fun q => decide (¬ q ∈ (s ++ [x])))
          = rest.filter (fun q => decide (¬ q ∈ (s ++ [x]))) from by
        simp [List.filter, List.mem_append]]
      rw [show (x :: rest).filter (fun q => decide (¬ q ∈ s))
          = x :: rest.filter (fun q => decide (¬ q ∈ s)) from by
        simp [List.filter, hcs]]
      rw [filter_same_of_not_mem hrest]
      exact (List.length_cons _ _).symm
    · rcases List.mem_cons.1 hcl with hcx | hcrest
      · exact absurd hcx.symm hx
      · by_cases hmem : x ∈ s
        · rw [show (x :: rest).filter (fun q => decide (¬ q ∈ (s ++ [c])))
              = rest.filter (fun q => decide (¬ q ∈ (s ++ [c]))) from by
            simp [List.filter, List.mem_append, hmem]]
          rw [show (x :: rest).filter (fun q => decide (¬ q ∈ s))
              = rest.filter (fun q => decide (¬ q ∈ s)) from by
            simp [List.filter, hmem]]
          exact ih hnd.2 hcrest
        · have hx2 : ¬ x ∈ (s ++ [c]) := by
            simp [List.mem_append, hmem, hx]
          rw [show (x :: rest).filter (fun q => decide (¬ q ∈ (s ++ [c])))
              = x :: rest.filter (fun q => decide (¬ q ∈ (s ++ [c]))) from by
            simp [List.filter, hx2]]
          rw [show (x :: rest).filter (fun q => decide (¬ q ∈ s))
              = x :: rest.filter (fun q => decide (¬ q ∈ s)) from by
            simp [List.filter, hmem]]
          simp only [List.length_cons]
          rw [← ih hnd.2 hcrest]

theorem filter_eq_singleton {l : List PassId} {pr : PassId → Bool} {c : PassId}
    (hnd : l.Nodup) (hcl : c ∈ l) (hpc : pr c = true)
    (hall : ∀ x ∈ l, pr x = true → x = c) : l.filter pr = [c] := by
  induction l with
  | nil => simp at hcl
  | cons x rest ih =>
    rw [List.nodup_cons] at hnd
    by_cases hx : x = c
    · subst hx
      rw [show (x :: rest).filter pr = x :: rest.filter pr from by simp [List.filter, hpc]]
      have : rest.filter pr = [] := by
        rw [List.filter_eq_nil]
        intro a ha hpa
        exact hnd.1 ((hall a (List.mem_cons_of_mem _ ha) hpa) ▸ ha)
      rw [this]
    · rcases List.mem_cons.1 hcl with hcx | hcrest
      · exact absurd hcx.symm hx
      · have hpx : pr x = false := by
          cases hp : pr x with
          | false => rfl
          | true => exact absurd (hall x (List.mem_cons_self _ _) hp) hx
        rw [show (x :: rest).filter pr = rest.filter pr from by simp [List.filter, hpx]]
        exact ih hnd.2 hcrest
          (fun a ha hpa => hall a (List.mem_cons_of_mem _ ha) hpa)

/-- A zero remaining-dependency count says exactly that every dependency has
been emitted. -/
theorem remaining_zero_iff (deps : PassId → List PassId) (p : PassId) (s : List PassId) :
    ((deps p).filter (fun q => decide (¬ q ∈ s))).length = 0 ↔
      ∀ q ∈ deps p, q ∈ s := by
  rw [List.length_eq_zero, List.filter_eq_nil]
  constructor
  · intro h q hq
    by_contra hqs
    exact h q hq (by simpa using hqs)
  · intro h q hq
    simp [h q hq]

end RenderSandbox

namespace RenderSandbox

/-- Invariant-preservation of the Kahn loop: started from a consistent state
with enough fuel, the loop emits a duplicate-free topological order containing
every pass whose dependencies it contains. -/
theorem kahnLoopF_spec
    (nodes : List PassId) (deps : PassId → List PassId)
    (adj : List (PassId × List PassId))
    (hDnd : ∀ p, (deps p).Nodup)
    (hDsub : ∀ p q, q ∈ deps p → p ∈ nodes ∧ q ∈ nodes)
    (hSelf : ∀ p, ¬ p ∈ deps p)
    (hAdj : ∀ a ∈ nodes, ∃ l, alook adj a = some l ∧ l.Nodup ∧ ∀ p, (p ∈ l ↔ a ∈ deps p)) :
    ∀ (fuel : Nat) (ind : List (PassId × Nat)) (queue sorted : List PassId),
    queue.length + degSum ind ≤ fuel →
    akeys ind = nodes →
    (∀ p ∈ nodes, alook ind p
        = some (((deps p).filter (fun q => decide (¬ q ∈ sorted))).length)) →
    queue.Nodup →
    (∀ p ∈ queue, p ∈ nodes ∧ ¬ p ∈ sorted ∧ ∀ q ∈ deps p, q ∈ sorted) →
    sorted.Nodup →
    (∀ p ∈ sorted, p ∈ nodes) →
    topoSpec deps sorted →
    (∀ p ∈ nodes, (∀ q ∈ deps p, q ∈ sorted) → p ∈ queue ∨ p ∈ sorted) →
    (kahnLoopF adj fuel ind queue sorted).Nodup ∧
      (∀ p ∈ kahnLoopF adj fuel ind queue sorted, p ∈ nodes) ∧
      topoSpec deps (kahnLoopF adj fuel ind queue sorted) ∧
      (∀ p ∈ nodes, (∀ q ∈ deps p, q ∈ kahnLoopF adj fuel ind queue sorted) →
        p ∈ kahnLoopF adj fuel ind queue sorted) := by
  intro fuel
  induction fuel with
  | zero =>
    intro ind queue sorted hfuel hIK hI hQnd hQ hSnd hSsub hTopo hZero
    have hq : queue = [] := by
      cases queue with
      | nil => rfl
      | cons c q => simp [List.length_cons] at hfuel
    subst hq
    rw [show kahnLoopF adj 0 ind [] sorted = sorted from rfl]
    refine ⟨hSnd, hSsub, hTopo, fun p hp hd => ?_⟩
    rcases hZero p hp hd with h | h
    · simp at h
    · exact h
  | succ fuel ih =>
    intro ind queue sorted hfuel hIK hI hQnd hQ hSnd hSsub hTopo hZero
    cases queue with
    | nil =>
      rw [show kahnLoopF adj (fuel + 1) ind [] sorted = sorted from rfl]
      refine ⟨hSnd, hSsub, hTopo, fun p hp hd => ?_⟩
      rcases hZero p hp hd with h | h
      · simp at h
      · exact h
    | cons c queue' =>
      obtain ⟨hcN, hcS, hcD⟩ := hQ c (List.mem_cons_self _ _)
      obtain ⟨nbsl, hadjl, hnbnd, hnbiff⟩ := hAdj c hcN
      have hnbs : alookD adj c = nbsl := by
        unfold alookD
        rw [hadjl]
        rfl
      have hstep : kahnLoopF adj (fuel + 1) ind (c :: queue') sorted
          = kahnLoopF adj fuel (relax nbsl ind queue').1 (relax nbsl ind queue').2
              (sorted ++ [c]) := by
        rw [show kahnLoopF adj (fuel + 1) ind (c :: queue') sorted
            = kahnLoopF adj fuel (relax (alookD adj c) ind queue').1
                (relax (alookD adj c) ind queue').2 (sorted ++ [c]) from rfl]
        rw [hnbs]
      rw [hstep]
      have hqnd' : queue'.Nodup := (List.nodup_cons.1 hQnd).2
      have hcq : ¬ c ∈ queue' := (List.nodup_cons.1 hQnd).1
      have hnbsub : ∀ p, p ∈ nbsl → p ∈ nodes :=
        fun p hp => (hDsub p c ((hnbiff p).1 hp)).1
      have hrelq : (relax nbsl ind queue').2
          = queue' ++ nbsl.filter (fun p => decide (alook ind p = some 1)) :=
        relax_snd nbsl ind queue' hnbnd
      have hrelI : ∀ p, alook (relax nbsl ind queue').1 p
          = if p ∈ nbsl then (alook ind p).map (fun d => d - 1) else alook ind p :=
        fun p => relax_fst_alook nbsl ind queue' p hnbnd
      have hIK' : akeys (relax nbsl ind queue').1 = nodes := by
        rw [relax_fst_akeys]
        exact hIK
      have hclosed : ∀ p ∈ sorted, ∀ q ∈ deps p, q ∈ sorted :=
        fun p hp q hq => topoSpec_closed hTopo hp hq
      -- stored count of an enqueued pass is its remaining count, which is one
      have hcnt1 : ∀ p, p ∈ nbsl → alook ind p = some 1 →
          ((deps p).filter (fun q => decide (¬ q ∈ sorted))).length = 1 := by
        intro p hpn h1
        exact Option.some.inj ((hI p (hnbsub p hpn)).symm.trans h1)
      -- every dependency of an enqueued pass lies in the extended order
      have hdep' : ∀ p, p ∈ nbsl → alook ind p = some 1 →
          ∀ q ∈ deps p, q ∈ sorted ++ [c] := by
        intro p hpn h1 q hq
        have hcdep : c ∈ deps p := (hnbiff p).1 hpn
        have hfil : (deps p).filter (fun q => decide (¬ q ∈ sorted)) = [c] := by
          obtain ⟨a, ha⟩ := List.length_eq_one.1 (hcnt1 p hpn h1)
          have hcmem : c ∈ (deps p).filter (fun q => decide (¬ q ∈ sorted)) :=
            List.mem_filter.2 ⟨hcdep, by simpa using hcS⟩
          rw [ha] at hcmem
          rw [ha, List.mem_singleton.1 hcmem]
        by_cases hqs : q ∈ sorted
        · exact List.mem_append.2 (Or.inl hqs)
        · have hqf : q ∈ (deps p).filter (fun q => decide (¬ q ∈ sorted)) :=
            List.mem_filter.2 ⟨hq, by simpa using hqs⟩
          rw [hfil] at hqf
          rw [List.mem_singleton.1 hqf]
          exact List.mem_append.2 (Or.inr (List.mem_singleton.2 rfl))
      -- an enqueued pass is not yet emitted and is not the popped pass
      have hnots : ∀ p, p ∈ nbsl → alook ind p = some 1 → ¬ p ∈ sorted := by
        intro p hpn h1 hps
        have h0 : ((deps p).filter (fun q => decide (¬ q ∈ sorted))).length = 0 :=
          (remaining_zero_iff deps p sorted).2 (hclosed p hps)
        rw [hcnt1 p hpn h1] at h0
        cases h0
      have hnotc : ∀ p, p ∈ nbsl → p ≠ c := by
        intro p hpn hpc
        exact hSelf c (hpc ▸ (hnbiff p).1 hpn)
      -- new in-degree invariant
      have hI' : ∀ p ∈ nodes, alook (relax nbsl ind queue').1 p
          = some (((deps p).filter (fun q => decide (¬ q ∈ (sorted ++ [c])))).length) := by
        intro p hp
        rw [hrelI p]
        by_cases hpn : p ∈ nbsl
        · rw [if_pos hpn, hI p hp]
          have hcdep : c ∈ deps p := (hnbiff p).1 hpn
          have hrc := filter_remove_count (hDnd p) hcdep hcS
          rw [show (some (((deps p).filter (fun q => decide (¬ q ∈ sorted))).length)).map
              (fun d => d - 1)
              = some ((((deps p).filter (fun q => decide (¬ q ∈ sorted))).length) - 1)
              from rfl]
          congr 1
          omega
        · rw [if_neg hpn, hI p hp]
          congr 1
          have hcdep : ¬ c ∈ deps p := fun hcd => hpn ((hnbiff p).2 hcd)
          rw [filter_same_of_not_mem hcdep]
      -- new queue invariant
      have hQ' : ∀ p ∈ (relax nbsl ind queue').2,
          p ∈ nodes ∧ ¬ p ∈ (sorted ++ [c]) ∧ ∀ q ∈ deps p, q ∈ (sorted ++ [c]) := by
        intro p hp
        rw [hrelq] at hp
        rcases List.mem_append.1 hp with hp1 | hp1
        · obtain ⟨hn, hs, hd⟩ := hQ p (List.mem_cons_of_mem _ hp1)
          refine ⟨hn, ?_, fun q hq => List.mem_append.2 (Or.inl (hd q hq))⟩
          intro hmem
          rcases List.mem_append.1 hmem with h | h
          · exact hs h
          · exact hcq (List.mem_singleton.1 h ▸ hp1)
        · obtain ⟨hpn, h1⟩ := List.mem_filter.1 hp1
          have h1' : alook ind p = some 1 := by simpa using h1
          refine ⟨hnbsub p hpn, ?_, hdep' p hpn h1'⟩
          intro hmem
          rcases List.mem_append.1 hmem with h | h
          · exact hnots p hpn h1' h
          · exact hnotc p hpn (List.mem_singleton.1 h)
      -- new queue is duplicate-free
      have hQnd' : (relax nbsl ind queue').2.Nodup := by
        rw [hrelq]
        rw [List.nodup_append]
        refine ⟨hqnd', List.Nodup.filter _ hnbnd, ?_⟩
        intro p hp1 hp2
        obtain ⟨hpn, h1⟩ := List.mem_filter.1 hp2
        have h1' : alook ind p = some 1 := by simpa using h1
        obtain ⟨hn, hs, hd⟩ := hQ p (List.mem_cons_of_mem _ hp1)
        have h0 : ((deps p).filter (fun q => decide (¬ q ∈ sorted))).length = 0 :=
          (remaining_zero_iff deps p sorted).2 hd
        rw [hcnt1 p hpn h1'] at h0
        cases h0
      -- extended order invariants
      have hSnd' : (sorted ++ [c]).Nodup := by
        rw [List.nodup_append]
        exact ⟨hSnd, List.nodup_singleton c,
          fun a ha hb => hcS (List.mem_singleton.1 hb ▸ ha)⟩
      have hSsub' : ∀ p ∈ sorted ++ [c], p ∈ nodes := by
        intro p hp
        rcases List.mem_append.1 hp with h | h
        · exact hSsub p h
        · exact List.mem_singleton.1 h ▸ hcN
      have hTopo' : topoSpec deps (sorted ++ [c]) := topoSpec_append hTopo hcD
      -- zero-degree passes are queued or emitted
      have hZero' : ∀ p ∈ nodes, (∀ q ∈ deps p, q ∈ (sorted ++ [c])) →
          p ∈ (relax nbsl ind queue').2 ∨ p ∈ (sorted ++ [c]) := by
        intro p hp hd
        by_cases hds : ∀ q ∈ deps p, q ∈ sorted
        · rcases hZero p hp hds with hq | hs
          · rcases List.mem_cons.1 hq with rfl | hq2
            · exact Or.inr (List.mem_append.2 (Or.inr (List.mem_singleton.2 rfl)))
            · refine Or.inl ?_
              rw [hrelq]
              exact List.mem_append.2 (Or.inl hq2)
          · exact Or.inr (List.mem_append.2 (Or.inl hs))
        · push_neg at hds
          obtain ⟨q0, hq0d, hq0s⟩ := hds
          have hq0c : q0 = c := by
            rcases List.mem_append.1 (hd q0 hq0d) with h | h
            · exact absurd h hq0s
            · exact List.mem_singleton.1 h
          subst hq0c
          have hpn : p ∈ nbsl := (hnbiff p).2 hq0d
          have hfil : (deps p).filter (fun q => decide (¬ q ∈ sorted)) = [q0] := by
            refine filter_eq_singleton (hDnd p) hq0d (by simpa using hq0s) ?_
            intro x hx hpx
            rcases List.mem_append.1 (hd x hx) with h | h
            · exact absurd h (by simpa using hpx)
            · exact List.mem_singleton.1 h
          have h1 : alook ind p = some 1 := by
            rw [hI p hp, hfil]
            rfl
          refine Or.inl ?_
          rw [hrelq]
          exact List.mem_append.2 (Or.inr (List.mem_filter.2 ⟨hpn, by simpa using h1⟩))
      -- fuel accounting
      have hfuel' : (relax nbsl ind queue').2.length + degSum (relax nbsl ind queue').1
          ≤ fuel := by
        have h1 := relax_measure_le nbsl ind queue'
        have h2 : (c :: queue').length + degSum ind ≤ fuel + 1 := hfuel
        simp only [List.length_cons] at h2
        omega
      exact ih (relax nbsl ind queue').1 (relax nbsl ind queue').2 (sorted ++ [c])
        hfuel' hIK' hI' hQnd' hQ' hSnd' hSsub' hTopo' hZero'

end RenderSandbox

namespace RenderSandbox

/-! ## Lemmas: positions in an order, cardinalities, cycles -/

theorem idxOf_cons_self (a : PassId) (l : List PassId) : idxOf (a :: l) a = 0 := by
  unfold idxOf
  rw [List.findIdx_cons]
  simp

theorem idxOf_cons_ne {a b : PassId} (l : List PassId) (h : b ≠ a) :
    idxOf (b :: l) a = idxOf l a + 1 := by
  unfold idxOf
  rw [List.findIdx_cons]
  simp [h]

theorem idxOf_lt_of_mem_take {l : List PassId} {a : PassId} {n : Nat}
    (h : a ∈ l.take n) : idxOf l a < n := by
  induction l generalizing n with
  | nil => simp at h
  | cons x xs ih =>
    cases n with
    | zero => simp at h
    | succ m =>
      rw [List.take_succ_cons] at h
      by_cases hx : x = a
      · subst hx
        rw [idxOf_cons_self]
        exact Nat.succ_pos m
      · rcases List.mem_cons.1 h with h1 | h1
        · exact absurd h1.symm hx
        · rw [idxOf_cons_ne _ hx]
          exact Nat.succ_lt_succ (ih h1)

theorem idxOf_get {l : List PassId} (hnd : l.Nodup) {i : Nat} (hi : i < l.length) :
    idxOf l (l.get ⟨i, hi⟩) = i := by
  induction l generalizing i with
  | nil => simp at hi
  | cons x xs ih =>
    rw [List.nodup_cons] at hnd
    cases i with
    | zero =>
      rw [show (x :: xs).get ⟨0, hi⟩ = x from rfl]
      exact idxOf_cons_self x xs
    | succ j =>
      have hj : j < xs.length := Nat.lt_of_succ_lt_succ hi
      rw [show (x :: xs).get ⟨j + 1, hi⟩ = xs.get ⟨j, hj⟩ from rfl]
      have hne : x ≠ xs.get ⟨j, hj⟩ := by
        intro hc
        exact hnd.1 (hc ▸ List.get_mem xs j hj)
      rw [idxOf_cons_ne xs hne]
      rw [ih hnd.2 hj]

/-- In a duplicate-free order satisfying `topoSpec`, every dependency sits at
a strictly smaller index. -/
theorem topo_idx_lt {deps : PassId → List PassId} {out : List PassId}
    (hTopo : topoSpec deps out) (hnd : out.Nodup) {p q : PassId} (hq : q ∈ deps p)
    (hp : p ∈ out) : q ∈ out ∧ idxOf out q < idxOf out p := by
  obtain ⟨⟨i, hi⟩, rfl⟩ := List.mem_iff_get.1 hp
  have htake := hTopo i hi q hq
  refine ⟨List.take_subset i out htake, ?_⟩
  rw [idxOf_get hnd hi]
  exact idxOf_lt_of_mem_take htake

theorem nodup_subset_length_le {l₁ l₂ : List PassId} (h₁ : l₁.Nodup)
    (hsub : ∀ a ∈ l₁, a ∈ l₂) (h₂ : l₂.Nodup) : l₁.length ≤ l₂.length := by
  rw [← List.toFinset_card_of_nodup h₁, ← List.toFinset_card_of_nodup h₂]
  apply Finset.card_le_card
  intro a ha
  rw [List.mem_toFinset] at ha
  rw [List.mem_toFinset]
  exact hsub a ha

theorem nodup_subset_length_eq_mem {l₁ l₂ : List PassId} (h₁ : l₁.Nodup)
    (hsub : ∀ a ∈ l₁, a ∈ l₂) (h₂ : l₂.Nodup) (hlen : l₂.length ≤ l₁.length) :
    ∀ a, a ∈ l₁ ↔ a ∈ l₂ := by
  have hfin : l₁.toFinset = l₂.toFinset := by
    apply Finset.eq_of_subset_of_card_le
    · intro a ha
      rw [List.mem_toFinset] at ha
      rw [List.mem_toFinset]
      exact hsub a ha
    · rw [List.toFinset_card_of_nodup h₁, List.toFinset_card_of_nodup h₂]
      exact hlen
  intro a
  rw [← List.mem_toFinset, ← List.mem_toFinset, hfin]

/-- A nonempty finite set in which every element has a predecessor inside the
set yields a cycle of the edge relation (pigeonhole on iterated choice). -/
theorem cycle_of_closed_pred (S : Finset PassId) (R : PassId → PassId → Prop)
    (hne : S.Nonempty) (hstep : ∀ p ∈ S, ∃ q, q ∈ S ∧ R p q) :
    ∃ p, Relation.TransGen R p p := by
  classical
  obtain ⟨p0, hp0⟩ := hne
  let f : PassId → PassId := fun p =>
    if h : ∃ q, q ∈ S ∧ R p q then Classical.choose h else p
  have hf : ∀ p ∈ S, f p ∈ S ∧ R p (f p) := by
    intro p hp
    have hex := hstep p hp
    have hfp : f p = Classical.choose hex := dif_pos hex
    rw [hfp]
    exact Classical.choose_spec hex
  have hiter : ∀ n, f^[n] p0 ∈ S := by
    intro n
    induction n with
    | zero => simpa using hp0
    | succ m ih =>
      rw [Function.iterate_succ_apply']
      exact (hf _ ih).1
  have hmaps : ∀ i ∈ Finset.range (S.card + 1), f^[i] p0 ∈ S := fun i _ => hiter i
  obtain ⟨i, hi, j, hj, hne', heq⟩ :=
    Finset.exists_ne_map_eq_of_card_lt_of_maps_to
      (by rw [Finset.card_range]; exact Nat.lt_succ_self _) hmaps
  have hpath : ∀ a b : Nat, a < b → Relation.TransGen R (f^[a] p0) (f^[b] p0) := by
    intro a b hab
    induction b with
    | zero => simp at hab
    | succ m ih =>
      rcases Nat.lt_succ_iff_lt_or_eq.1 hab with hlt | heq2
      · have hstep2 : R (f^[m] p0) (f^[m + 1] p0) := by
          rw [Function.iterate_succ_apply']
          exact (hf _ (hiter m)).2
        exact Relation.TransGen.tail (ih hlt) hstep2
      · subst heq2
        have hstep2 : R (f^[a] p0) (f^[a + 1] p0) := by
          rw [Function.iterate_succ_apply']
          exact (hf _ (hiter a)).2
        exact Relation.TransGen.single hstep2
  rcases Ne.lt_or_lt hne' with hij | hij
  · exact ⟨f^[i] p0, heq ▸ hpath i j hij⟩
  · exact ⟨f^[j] p0, heq.symm ▸ hpath j i hij⟩

/-- If the emitted order is closed under "all dependencies emitted" and some
node is missing, the dependency relation has a cycle. -/
theorem cycle_of_missing {π : Type} (g : RenderGraph π) (nodes out : List PassId)
    (hDsub : ∀ p q, q ∈ g.depsOf p → p ∈ nodes ∧ q ∈ nodes)
    (hclosure : ∀ p ∈ nodes, (∀ q ∈ g.depsOf p, q ∈ out) → p ∈ out)
    {p0 : PassId} (hp0 : p0 ∈ nodes) (hout : ¬ p0 ∈ out) :
    ∃ p, Relation.TransGen (fun a b => b ∈ g.depsOf a) p p := by
  classical
  set S : Finset PassId := (nodes.filter (fun p => decide (¬ p ∈ out))).toFinset with hS
  have hmemS : ∀ p, p ∈ S ↔ p ∈ nodes ∧ ¬ p ∈ out := by
    intro p
    rw [hS, List.mem_toFinset, List.mem_filter]
    simp
  apply cycle_of_closed_pred S (fun a b => b ∈ g.depsOf a)
  · exact ⟨p0, (hmemS p0).2 ⟨hp0, hout⟩⟩
  · intro p hp
    obtain ⟨hpn, hpo⟩ := (hmemS p).1 hp
    by_cases hall : ∀ q ∈ g.depsOf p, q ∈ out
    · exact absurd (hclosure p hpn hall) hpo
    · push_neg at hall
      obtain ⟨q, hqd, hqo⟩ := hall
      exact ⟨q, (hmemS q).2 ⟨(hDsub p q hqd).2, hqo⟩, hqd⟩

end RenderSandbox

namespace RenderSandbox

/-- Specification of the list Kahn's algorithm emits for a well-formed graph:
it is duplicate-free, contains only passes of the graph, respects every
dependency edge, and contains every pass whose dependencies it contains. -/
theorem kahnSorted_spec {π : Type} (g : RenderGraph π) (hWf : g.Wf) :
    (g.kahnSorted g.depsMap).Nodup ∧
      (∀ p ∈ g.kahnSorted g.depsMap, p ∈ akeys g.passes) ∧
      topoSpec g.depsOf (g.kahnSorted g.depsMap) ∧
      (∀ p ∈ akeys g.passes, (∀ q ∈ g.depsOf p, q ∈ g.kahnSorted g.depsMap) →
        p ∈ g.kahnSorted g.depsMap) := by
  obtain ⟨hkeys, hnodes⟩ := hWf
  have hdsk : akeys g.depsMap = akeys g.passes := by
    rw [akeys_depsMap]
    exact hkeys
  have hdsnd : (akeys g.depsMap).Nodup := by
    rw [hdsk]
    exact hnodes
  have hDsub : ∀ p q, q ∈ g.depsOf p → p ∈ akeys g.passes ∧ q ∈ akeys g.passes := by
    intro p q hq
    obtain ⟨h1, h2⟩ := depsOf_sub_keys hq
    exact ⟨hkeys ▸ h1, hkeys ▸ h2⟩
  have hvals : ∀ kv ∈ g.depsMap, kv.2.Nodup := by
    intro kv hkv
    have : alook g.depsMap kv.1 = some kv.2 := alook_eq_of_mem_nodup hdsnd hkv
    have h2 : g.depsOf kv.1 = kv.2 := by
      unfold RenderGraph.depsOf alookD
      rw [this]
      rfl
    exact h2 ▸ depsOf_nodup g kv.1
  -- characterizations of the initial in-degree table and adjacency list
  have hind : ∀ p, alook (buildIndAdj g.depsMap
        (g.passes.map (fun kv => (kv.1, 0)),
         g.passes.map (fun kv => (kv.1, ([] : List PassId))))).1 p
      = if p ∈ akeys g.passes then some (g.depsOf p).length else none := by
    intro p
    rw [buildIndAdj_fst_alook _ _ _ _ hdsnd]
    rw [alook_map_const]
    by_cases hp : p ∈ akeys g.passes
    · rw [if_pos hp, if_pos hp]
      rw [show Option.map (fun d => d + (alookD g.depsMap p).length) (some 0)
          = some (0 + (alookD g.depsMap p).length) from rfl]
      rw [Nat.zero_add]
      rfl
    · rw [if_neg hp, if_neg hp]
      rfl
  have hadj : ∀ a, alook (buildIndAdj g.depsMap
        (g.passes.map (fun kv => (kv.1, 0)),
         g.passes.map (fun kv => (kv.1, ([] : List PassId))))).2 a
      = if a ∈ akeys g.passes then
          some (((g.depsMap.filter (fun kv => decide (a ∈ kv.2))).map Prod.fst)) else none := by
    intro a
    rw [buildIndAdj_snd_alook _ _ _ _ hvals]
    rw [alook_map_const]
    by_cases ha : a ∈ akeys g.passes
    · rw [if_pos ha, if_pos ha]
      rfl
    · rw [if_neg ha, if_neg ha]
      rfl
  have hadjmem : ∀ a p, (p ∈ (g.depsMap.filter (fun kv => decide (a ∈ kv.2))).map Prod.fst
      ↔ a ∈ g.depsOf p) := by
    intro a p
    rw [List.mem_map]
    constructor
    · rintro ⟨kv, hkv, rfl⟩
      obtain ⟨hkv1, hkv2⟩ := List.mem_filter.1 hkv
      have : alook g.depsMap kv.1 = some kv.2 := alook_eq_of_mem_nodup hdsnd hkv1
      have h2 : g.depsOf kv.1 = kv.2 := by
        unfold RenderGraph.depsOf alookD
        rw [this]
        rfl
      rw [h2]
      simpa using hkv2
    · intro ha
      have hne : g.depsOf p ≠ [] := fun hc => by
        rw [hc] at ha
        simp at ha
      unfold RenderGraph.depsOf alookD at ha hne
      cases hl : alook g.depsMap p with
      | none =>
        rw [hl] at hne
        simp at hne
      | some v =>
        rw [hl] at ha
        refine ⟨(p, v), List.mem_filter.2 ⟨mem_of_alook_eq_some hl, by simpa using ha⟩, rfl⟩
  have hadjnd : ∀ a, ((g.depsMap.filter (fun kv => decide (a ∈ kv.2))).map Prod.fst).Nodup := by
    intro a
    have hsub : List.Sublist ((g.depsMap.filter (fun kv => decide (a ∈ kv.2))).map Prod.fst)
        (g.depsMap.map Prod.fst) :=
      (List.filter_sublist _).map Prod.fst
    exact List.Nodup.sublist hsub (by
      rw [show g.depsMap.map Prod.fst = akeys g.depsMap from rfl]
      exact hdsnd)
  -- the seeded queue
  have hqmem : ∀ p, p ∈ ((buildIndAdj g.depsMap
        (g.passes.map (fun kv => (kv.1, 0)),
         g.passes.map (fun kv => (kv.1, ([] : List PassId))))).1.filter
          (fun kv => decide (kv.2 = 0))).map Prod.fst
      ↔ p ∈ akeys g.passes ∧ (g.depsOf p).length = 0 := by
    intro p
    have hkeys1 : akeys (buildIndAdj g.depsMap
        (g.passes.map (fun kv => (kv.1, 0)),
         g.passes.map (fun kv => (kv.1, ([] : List PassId))))).1 = akeys g.passes := by
      rw [buildIndAdj_fst_akeys]
      exact akeys_map_const _ _
    have hnd1 : (akeys (buildIndAdj g.depsMap
        (g.passes.map (fun kv => (kv.1, 0)),
         g.passes.map (fun kv => (kv.1, ([] : List PassId))))).1).Nodup := by
      rw [hkeys1]
      exact hnodes
    rw [List.mem_map]
    constructor
    · rintro ⟨kv, hkv, rfl⟩
      obtain ⟨hkv1, hkv2⟩ := List.mem_filter.1 hkv
      have hl : alook _ kv.1 = some kv.2 := alook_eq_of_mem_nodup hnd1 hkv1
      have hmem : kv.1 ∈ akeys g.passes := by
        rw [← hkeys1]
        exact mem_akeys_of_mem_assoc hkv1
      rw [hind kv.1, if_pos hmem] at hl
      refine ⟨hmem, ?_⟩
      injection hl with hl
      rw [hl]
      simpa using hkv2
    · rintro ⟨hp, hlen⟩
      have hl := hind p
      rw [if_pos hp] at hl
      refine ⟨(p, (g.depsOf p).length),
        List.mem_filter.2 ⟨mem_of_alook_eq_some hl, by simpa using hlen⟩, rfl⟩
  have hqnd : (((buildIndAdj g.depsMap
        (g.passes.map (fun kv => (kv.1, 0)),
         g.passes.map (fun kv => (kv.1, ([] : List PassId))))).1.filter
          (fun kv => decide (kv.2 = 0))).map Prod.fst).Nodup := by
    have hkeys1 : akeys (buildIndAdj g.depsMap
        (g.passes.map (fun kv => (kv.1, 0)),
         g.passes.map (fun kv => (kv.1, ([] : List PassId))))).1 = akeys g.passes := by
      rw [buildIndAdj_fst_akeys]
      exact akeys_map_const _ _
    have hsub : List.Sublist (((buildIndAdj g.depsMap
        (g.passes.map (fun kv => (kv.1, 0)),
         g.passes.map (fun kv => (kv.1, ([] : List PassId))))).1.filter
          (fun kv => decide (kv.2 = 0))).map Prod.fst)
        ((buildIndAdj g.depsMap
        (g.passes.map (fun kv => (kv.1, 0)),
         g.passes.map (fun kv => (kv.1, ([] : List PassId))))).1.map Prod.fst) :=
      (List.filter_sublist _).map Prod.fst
    apply List.Nodup.sublist hsub
    rw [show (buildIndAdj g.depsMap
        (g.passes.map (fun kv => (kv.1, 0)),
         g.passes.map (fun kv => (kv.1, ([] : List PassId))))).1.map Prod.fst
        = akeys (buildIndAdj g.depsMap
        (g.passes.map (fun kv => (kv.1, 0)),
         g.passes.map (fun kv => (kv.1, ([] : List PassId))))).1 from rfl]
    rw [hkeys1]
    exact hnodes
  -- apply the loop specification
  unfold RenderGraph.kahnSorted
  apply kahnLoopF_spec (akeys g.passes) g.depsOf _ (depsOf_nodup g) hDsub
    (depsOf_irrefl g)
  · intro a ha
    refine ⟨(g.depsMap.filter (fun kv => decide (a ∈ kv.2))).map Prod.fst, ?_, hadjnd a,
      hadjmem a⟩
    rw [hadj a, if_pos ha]
  · exact Nat.le_refl _
  · rw [buildIndAdj_fst_akeys]
    exact akeys_map_const _ _
  · intro p hp
    rw [hind p, if_pos hp]
    congr 1
    rw [show (g.depsOf p).filter (fun q => decide (¬ q ∈ ([] : List PassId)))
        = g.depsOf p from by simp]
  · exact hqnd
  · intro p hp
    obtain ⟨hp1, hp2⟩ := (hqmem p).1 hp
    refine ⟨hp1, by simp, ?_⟩
    intro q hq
    rw [List.length_eq_zero.1 hp2] at hq
    simp at hq
  · exact List.nodup_nil
  · intro p hp
    simp at hp
  · intro i hi
    simp at hi
  · intro p hp hd
    left
    rw [hqmem p]
    refine ⟨hp, ?_⟩
    rw [List.length_eq_zero]
    by_contra hne
    obtain ⟨q, hq⟩ := List.exists_mem_of_ne_nil _ hne
    exact absurd (hd q hq) (by simp)

end RenderSandbox

namespace RenderSandbox

/-! ## Lemmas: compile-level consequences -/

theorem kahnSorted_length_le {π : Type} (g : RenderGraph π) (hWf : g.Wf) :
    (g.kahnSorted g.depsMap).length ≤ g.passes.length := by
  obtain ⟨hnd, hsub, -, -⟩ := kahnSorted_spec g hWf
  have h := nodup_subset_length_le hnd hsub hWf.2
  rw [show (akeys g.passes).length = g.passes.length from List.length_map _ _] at h
  exact h

theorem compile_acyclic_full {π : Type} (g : RenderGraph π) (hWf : g.Wf)
    (hacyc : ¬ ∃ p, Relation.TransGen (fun a b => b ∈ g.depsOf a) p p) :
    g.compile = .ok { g with compiled := some ⟨g.kahnSorted g.depsMap, g.writersMap⟩ } ∧
      (∀ p, p ∈ g.kahnSorted g.depsMap ↔ p ∈ akeys g.passes) ∧
      (g.kahnSorted g.depsMap).Nodup ∧ topoSpec g.depsOf (g.kahnSorted g.depsMap) := by
  obtain ⟨hnd, hsub, htopo, hclosure⟩ := kahnSorted_spec g hWf
  have hDsub : ∀ p q, q ∈ g.depsOf p → p ∈ akeys g.passes ∧ q ∈ akeys g.passes := by
    intro p q hq
    obtain ⟨h1, h2⟩ := depsOf_sub_keys hq
    exact ⟨hWf.1 ▸ h1, hWf.1 ▸ h2⟩
  have hall : ∀ p ∈ akeys g.passes, p ∈ g.kahnSorted g.depsMap := by
    intro p hp
    by_contra hmiss
    exact hacyc (cycle_of_missing g (akeys g.passes) (g.kahnSorted g.depsMap)
      hDsub hclosure hp hmiss)
  have hiff : ∀ p, p ∈ g.kahnSorted g.depsMap ↔ p ∈ akeys g.passes :=
    fun p => ⟨hsub p, hall p⟩
  have hlen : (g.kahnSorted g.depsMap).length = g.passes.length := by
    have h1 := nodup_subset_length_le hnd hsub hWf.2
    have h2 := nodup_subset_length_le hWf.2 hall hnd
    rw [show (akeys g.passes).length = g.passes.length from List.length_map _ _] at h1 h2
    omega
  refine ⟨?_, hiff, hnd, htopo⟩
  unfold RenderGraph.compile RenderGraph.topological_sort
  simp only [hlen, ne_eq, not_true_eq_false, if_neg, ite_false]

theorem compile_cyclic_full {π : Type} (g : RenderGraph π) (hWf : g.Wf)
    (hcyc : ∃ p, Relation.TransGen (fun a b => b ∈ g.depsOf a) p p) :
    g.compile = .error .CyclicDependency := by
  obtain ⟨hnd, hsub, htopo, hclosure⟩ := kahnSorted_spec g hWf
  have hne : (g.kahnSorted g.depsMap).length ≠ g.passes.length := by
    intro hlen
    have hall : ∀ a, a ∈ g.kahnSorted g.depsMap ↔ a ∈ akeys g.passes := by
      apply nodup_subset_length_eq_mem hnd hsub hWf.2
      rw [show (akeys g.passes).length = g.passes.length from List.length_map _ _]
      omega
    obtain ⟨p, hp⟩ := hcyc
    have hpnode : p ∈ akeys g.passes := by
      cases hp with
      | single h => exact hWf.1 ▸ (depsOf_sub_keys h).1
      | tail h1 h2 => exact hWf.1 ▸ (depsOf_sub_keys h2).2
    have hpout : p ∈ g.kahnSorted g.depsMap := (hall p).2 hpnode
    have hrank : ∀ a b, Relation.TransGen (fun a b => b ∈ g.depsOf a) a b →
        a ∈ g.kahnSorted g.depsMap →
        b ∈ g.kahnSorted g.depsMap ∧
          idxOf (g.kahnSorted g.depsMap) b < idxOf (g.kahnSorted g.depsMap) a := by
      intro a b h
      induction h with
      | single h1 =>
        intro ha
        exact topo_idx_lt htopo hnd h1 ha
      | tail h1 h2 ih =>
        intro ha
        obtain ⟨hb, hba⟩ := ih ha
        obtain ⟨hc, hcb⟩ := topo_idx_lt htopo hnd h2 hb
        exact ⟨hc, Nat.lt_trans hcb hba⟩
    obtain ⟨-, habs⟩ := hrank p p hp hpout
    omega
  unfold RenderGraph.compile RenderGraph.topological_sort
  simp only [hne, ne_eq, not_false_eq_true, if_pos, ite_true]

theorem compile_error_iff_len {π : Type} (g : RenderGraph π) :
    g.compile = .error RenderGraphError.CyclicDependency ↔
      (g.kahnSorted g.depsMap).length ≠ g.passes.length := by
  unfold RenderGraph.compile RenderGraph.topological_sort
  by_cases h : (g.kahnSorted g.depsMap).length = g.passes.length
  · simp [h]
  · simp [h]

theorem compile_error_iff_cycle {π : Type} (g : RenderGraph π) (hWf : g.Wf) :
    g.compile = .error RenderGraphError.CyclicDependency ↔
      ∃ p, Relation.TransGen (fun a b => b ∈ g.depsOf a) p p := by
  constructor
  · intro herr
    by_contra hacyc
    have := (compile_acyclic_full g hWf hacyc).1
    rw [this] at herr
    cases herr
  · exact compile_cyclic_full g hWf

theorem dependsOn_iff_depsOf {π : Type} (g : RenderGraph π)
    (hnd : (akeys g.resource_declarations).Nodup) (r w : PassId) :
    g.dependsOn r w ↔ w ∈ g.depsOf r := by
  rw [mem_depsOf]
  unfold RenderGraph.dependsOn
  constructor
  · rintro ⟨hne, res, hw, hr⟩
    exact ⟨hne, res, (writesRes_iff g hnd w res).1 hw, (readsRes_iff g hnd r res).1 hr⟩
  · rintro ⟨hne, res, hw, hr⟩
    exact ⟨hne, res, (writesRes_iff g hnd w res).2 hw, (readsRes_iff g hnd r res).2 hr⟩

theorem hasCycle_iff_internal {π : Type} (g : RenderGraph π)
    (hnd : (akeys g.resource_declarations).Nodup) :
    g.HasCycle ↔ ∃ p, Relation.TransGen (fun a b => b ∈ g.depsOf a) p p := by
  unfold RenderGraph.HasCycle
  constructor
  · rintro ⟨p, hp⟩
    exact ⟨p, hp.mono (fun a b h => (dependsOn_iff_depsOf g hnd a b).1 h)⟩
  · rintro ⟨p, hp⟩
    exact ⟨p, hp.mono (fun a b h => (dependsOn_iff_depsOf g hnd a b).2 h)⟩

/-- Establishing acyclicity by a rank function on the concrete dependency map
(usable by `decide` on concrete graphs). -/
theorem acyclic_of_rank {π : Type} (g : RenderGraph π) (rank : PassId → Nat)
    (h : ∀ r ∈ akeys g.resource_declarations, ∀ w ∈ g.depsOf r, rank w < rank r) :
    ¬ ∃ p, Relation.TransGen (fun a b => b ∈ g.depsOf a) p p := by
  rintro ⟨p, hp⟩
  have hstep : ∀ a b, b ∈ g.depsOf a → rank b < rank a := by
    intro a b hb
    exact h a (depsOf_sub_keys hb).1 b hb
  have hrank : ∀ a b, Relation.TransGen (fun a b => b ∈ g.depsOf a) a b →
      rank b < rank a := by
    intro a b hab
    induction hab with
    | single h1 => exact hstep _ _ h1
    | tail h1 h2 ih => exact Nat.lt_trans (hstep _ _ h2) ih
  exact absurd (hrank p p hp) (Nat.lt_irrefl _)

end RenderSandbox

namespace RenderSandbox

/-- Claim C1: for every well-formed, acyclic declaration set, `compile()`
succeeds and produces an execution order that lists exactly the graph's
passes, without duplicates, in which for every resource id every pass with
`Write`/`ReadWrite` usage appears before every pass with `Read`/`ReadWrite`
usage that is not itself a writer of that resource; and the dependency set
computed by `compile` contains exactly the writer-to-reader edges, so passes
that only read a resource with no declared writer incur no dependency from
that resource. -/
theorem compile_acyclic_correct : ∀ (π : Type) (g : RenderGraph π), g.Wf →
    ¬ g.HasCycle →
    ∃ g', g.compile = .ok g' ∧ ∃ ord, g'.execution_order = some ord ∧
      ord.Nodup ∧ (∀ p, p ∈ ord ↔ p ∈ akeys g.passes) ∧
      (∀ res w r, g.writesRes w res → g.readsRes r res → ¬ g.writesRes r res →
        idxOf ord w < idxOf ord r) ∧
      (∀ r q, q ∈ g.depsOf r ↔ (q ≠ r ∧ ∃ res, g.writesRes q res ∧ g.readsRes r res)) := by
  intro π g hWf hacyc
  have hdeclnd : (akeys g.resource_declarations).Nodup := by
    rw [hWf.1]
    exact hWf.2
  have hacyc' : ¬ ∃ p, Relation.TransGen (fun a b => b ∈ g.depsOf a) p p :=
    fun h => hacyc ((hasCycle_iff_internal g hdeclnd).2 h)
  obtain ⟨hok, hiff, hnd, htopo⟩ := compile_acyclic_full g hWf hacyc'
  refine ⟨_, hok, g.kahnSorted g.depsMap, rfl, hnd, hiff, ?_, ?_⟩
  · intro res w r hw hr hnw
    have hww : w ∈ g.writersOfL res := (writesRes_iff g hdeclnd w res).1 hw
    have hrr : r ∈ g.readersOfL res := (readsRes_iff g hdeclnd r res).1 hr
    have hne : w ≠ r := fun hc => hnw (hc ▸ hw)
    have hdep : w ∈ g.depsOf r := (mem_depsOf g r w).2 ⟨hne, res, hww, hrr⟩
    have hrout : r ∈ g.kahnSorted g.depsMap := by
      rw [hiff r, ← hWf.1]
      exact readersOfL_sub_keys hrr
    exact (topo_idx_lt htopo hnd hdep hrout).2
  · intro r q
    rw [mem_depsOf]
    constructor
    · rintro ⟨hne, res, hqw, hrr⟩
      exact ⟨hne, res, (writesRes_iff g hdeclnd q res).2 hqw,
        (readsRes_iff g hdeclnd r res).2 hrr⟩
    · rintro ⟨hne, res, hqw, hrr⟩
      exact ⟨hne, res, (writesRes_iff g hdeclnd q res).1 hqw,
        (readsRes_iff g hdeclnd r res).1 hrr⟩

theorem compile_acyclic_correct_witness :
    ∃ g', exampleCF.compile = .ok g' ∧ ∃ ord, g'.execution_order = some ord ∧
      ord.Nodup ∧ (∀ p, p ∈ ord ↔ p ∈ akeys exampleCF.passes) ∧
      (∀ res w r, exampleCF.writesRes w res → exampleCF.readsRes r res →
        ¬ exampleCF.writesRes r res → idxOf ord w < idxOf ord r) ∧
      (∀ r q, q ∈ exampleCF.depsOf r ↔
        (q ≠ r ∧ ∃ res, exampleCF.writesRes q res ∧ exampleCF.readsRes r res)) :=
  compile_acyclic_correct Unit exampleCF (by decide)
    (fun h => acyclic_of_rank exampleCF
      (fun p => if p = PassId.new ("ClearPass") then 0 else 1) (by decide)
      ((hasCycle_iff_internal exampleCF (by decide)).1 h))

/-- Claim C2: for every well-formed graph, `compile()` returns
`CyclicDependency` exactly when the induced writer-to-reader dependency graph
has a cycle, equivalently exactly when Kahn's algorithm emits fewer passes
than the total pass count; in particular the three-pass set A(writes X),
B(reads X, writes Y), C(reads Y, writes X) makes `compile()` return
`CyclicDependency`. -/
theorem compile_cyclic_iff :
    (∀ (π : Type) (g : RenderGraph π), g.Wf →
      ((g.compile = .error RenderGraphError.CyclicDependency ↔ g.HasCycle) ∧
       (g.compile = .error RenderGraphError.CyclicDependency ↔
         (g.kahnSorted g.depsMap).length < g.pass_count))) ∧
    exampleABC.compile = .error RenderGraphError.CyclicDependency := by
  constructor
  · intro π g hWf
    have hdeclnd : (akeys g.resource_declarations).Nodup := by
      rw [hWf.1]
      exact hWf.2
    constructor
    · exact (compile_error_iff_cycle g hWf).trans (hasCycle_iff_internal g hdeclnd).symm
    · have hiff := compile_error_iff_len g
      have hle := kahnSorted_length_le g hWf
      unfold RenderGraph.pass_count
      constructor
      · intro h
        have := hiff.1 h
        omega
      · intro h
        apply hiff.2
        omega
  · rfl

theorem compile_cyclic_iff_witness :
    (exampleABC.compile = .error RenderGraphError.CyclicDependency ↔
      exampleABC.HasCycle) ∧
    (exampleABC.compile = .error RenderGraphError.CyclicDependency ↔
      (exampleABC.kahnSorted exampleABC.depsMap).length < exampleABC.pass_count) :=
  compile_cyclic_iff.1 Unit exampleABC (by decide)

end RenderSandbox

namespace RenderSandbox

/-- Counterexample to claim C3 as stated: on a successfully compiled (empty)
graph, `remove_pass` with an id that is not present removes nothing and does
NOT invalidate the compiled cache, so `is_compiled()` stays true. -/
theorem remove_pass_missing_keeps_compiled :
    ∃ g', emptyGraphU.compile = .ok g' ∧ g'.is_compiled = true ∧
      ((g'.remove_pass (PassId.new ("X"))).2.is_compiled = true) :=
  ⟨{ emptyGraphU with compiled := some ⟨[], []⟩ }, rfl, rfl, rfl⟩

/-- Claim C3 (amended): after a successful `compile()`, `add_pass` always
makes `is_compiled()` false; `remove_pass` makes it false whenever the pass
was actually present (removal occurred); and any `execute()` while
`is_compiled()` is false fails with `CompilationFailed`. -/
theorem cache_invalidation_amended :
    ∀ (π : Type) (iface : PassIface π) (g : RenderGraph π) (p : π) (i : PassId)
      (device : Device) (q : Queue) (rm : ResourceManager),
    ((g.add_pass iface p).is_compiled = false) ∧
    (i ∈ akeys g.passes → ((g.remove_pass i).2.is_compiled = false)) ∧
    (g.is_compiled = false →
      g.execute iface device q rm
        = (.error (.CompilationFailed ("Graph not compiled")), q)) := by
  intro π iface g p i device q rm
  refine ⟨rfl, ?_, ?_⟩
  · intro hmem
    obtain ⟨v, hv⟩ := alook_isSome_of_mem hmem
    unfold RenderGraph.remove_pass
    rw [hv]
    rfl
  · intro hnc
    unfold RenderGraph.is_compiled at hnc
    unfold RenderGraph.execute
    cases hc : g.compiled with
    | none => rfl
    | some c =>
      rw [hc] at hnc
      simp at hnc

theorem cache_invalidation_amended_witness :
    (((⟨[(PassId.new ("P"), ())], [(PassId.new ("P"), [])],
        some ⟨[PassId.new ("P")], []⟩⟩ : RenderGraph Unit).remove_pass
        (PassId.new ("P"))).2.is_compiled = false) ∧
    ((⟨[(PassId.new ("P"), ())], [(PassId.new ("P"), [])],
        none⟩ : RenderGraph Unit).execute
        (⟨fun _ => PassId.new ("P"), fun _ => [], fun u _ _ => .ok u,
          fun _ _ _ _ e => .ok e⟩ : PassIface Unit) () ⟨[]⟩ ResourceManager.new
      = (.error (.CompilationFailed ("Graph not compiled")), ⟨[]⟩)) :=
  ⟨(cache_invalidation_amended Unit
      (⟨fun _ => PassId.new ("P"), fun _ => [], fun u _ _ => .ok u,
        fun _ _ _ _ e => .ok e⟩ : PassIface Unit)
      (⟨[(PassId.new ("P"), ())], [(PassId.new ("P"), [])],
        some ⟨[PassId.new ("P")], []⟩⟩ : RenderGraph Unit)
      () (PassId.new ("P")) () ⟨[]⟩ ResourceManager.new).2.1 (by decide),
   (cache_invalidation_amended Unit
      (⟨fun _ => PassId.new ("P"), fun _ => [], fun u _ _ => .ok u,
        fun _ _ _ _ e => .ok e⟩ : PassIface Unit)
      (⟨[(PassId.new ("P"), ())], [(PassId.new ("P"), [])],
        none⟩ : RenderGraph Unit)
      () (PassId.new ("P")) () ⟨[]⟩ ResourceManager.new).2.2 rfl⟩

/-- Claim C9: `add_pass` with a pass whose id is already present replaces the
stored pass and its declarations in place: the pass count is unchanged, the
lookups now return the new pass and its declarations, and the compiled cache
is invalidated. -/
theorem add_pass_replace :
    ∀ (π : Type) (iface : PassIface π) (g : RenderGraph π) (p : π),
    iface.id p ∈ akeys g.passes →
    ((g.add_pass iface p).pass_count = g.pass_count ∧
     alook (g.add_pass iface p).passes (iface.id p) = some p ∧
     alook (g.add_pass iface p).resource_declarations (iface.id p)
       = some (iface.resources p) ∧
     (g.add_pass iface p).compiled = none) := by
  intro π iface g p hmem
  refine ⟨?_, ?_, ?_, rfl⟩
  · unfold RenderGraph.add_pass RenderGraph.pass_count
    exact ains_length_of_mem _ _ hmem
  · unfold RenderGraph.add_pass
    exact alook_ains_self _ _ _
  · unfold RenderGraph.add_pass
    exact alook_ains_self _ _ _

theorem add_pass_replace_witness :
    ((⟨[(PassId.new ("P"), false)], [(PassId.new ("P"), [])],
        some ⟨[PassId.new ("P")], []⟩⟩ : RenderGraph Bool).add_pass
        (⟨fun _ => PassId.new ("P"),
          fun _ => [⟨ResourceId.new ("R"), ResourceUsage.Write⟩],
          fun u _ _ => .ok u, fun _ _ _ _ e => .ok e⟩ : PassIface Bool)
        true).pass_count
      = (⟨[(PassId.new ("P"), false)], [(PassId.new ("P"), [])],
          some ⟨[PassId.new ("P")], []⟩⟩ : RenderGraph Bool).pass_count ∧
    alook ((⟨[(PassId.new ("P"), false)], [(PassId.new ("P"), [])],
        some ⟨[PassId.new ("P")], []⟩⟩ : RenderGraph Bool).add_pass
        (⟨fun _ => PassId.new ("P"),
          fun _ => [⟨ResourceId.new ("R"), ResourceUsage.Write⟩],
          fun u _ _ => .ok u, fun _ _ _ _ e => .ok e⟩ : PassIface Bool)
        true).passes
      ((⟨fun _ => PassId.new ("P"),
          fun _ => [⟨ResourceId.new ("R"), ResourceUsage.Write⟩],
          fun u _ _ => .ok u, fun _ _ _ _ e => .ok e⟩ : PassIface Bool).id true)
      = some true ∧
    alook ((⟨[(PassId.new ("P"), false)], [(PassId.new ("P"), [])],
        some ⟨[PassId.new ("P")], []⟩⟩ : RenderGraph Bool).add_pass
        (⟨fun _ => PassId.new ("P"),
          fun _ => [⟨ResourceId.new ("R"), ResourceUsage.Write⟩],
          fun u _ _ => .ok u, fun _ _ _ _ e => .ok e⟩ : PassIface Bool)
        true).resource_declarations
      ((⟨fun _ => PassId.new ("P"),
          fun _ => [⟨ResourceId.new ("R"), ResourceUsage.Write⟩],
          fun u _ _ => .ok u, fun _ _ _ _ e => .ok e⟩ : PassIface Bool).id true)
      = some ((⟨fun _ => PassId.new ("P"),
          fun _ => [⟨ResourceId.new ("R"), ResourceUsage.Write⟩],
          fun u _ _ => .ok u, fun _ _ _ _ e => .ok e⟩ : PassIface Bool).resources true) ∧
    ((⟨[(PassId.new ("P"), false)], [(PassId.new ("P"), [])],
        some ⟨[PassId.new ("P")], []⟩⟩ : RenderGraph Bool).add_pass
        (⟨fun _ => PassId.new ("P"),
          fun _ => [⟨ResourceId.new ("R"), ResourceUsage.Write⟩],
          fun u _ _ => .ok u, fun _ _ _ _ e => .ok e⟩ : PassIface Bool)
        true).compiled = none :=
  add_pass_replace Bool
    (⟨fun _ => PassId.new ("P"),
      fun _ => [⟨ResourceId.new ("R"), ResourceUsage.Write⟩],
      fun u _ _ => .ok u, fun _ _ _ _ e => .ok e⟩ : PassIface Bool)
    (⟨[(PassId.new ("P"), false)], [(PassId.new ("P"), [])],
      some ⟨[PassId.new ("P")], []⟩⟩ : RenderGraph Bool)
    true (by decide)

/-- Claim C8: `initialize_passes` is idempotent for the repository's pass
implementations: a second invocation with the same arguments returns `Ok` and
leaves every pass unchanged, because `ForwardRenderPass` tracks its
`initialized` flag and no-ops on repeat calls, and `PlaceholderPass` has no
initialization at all. -/
theorem initialize_passes_idempotent :
    ∀ (g : RenderGraph PassObj) (device : Device) (rm : ResourceManager)
      (g' : RenderGraph PassObj),
    g.initialize_passes objIface device rm = .ok g' →
    g'.initialize_passes objIface device rm = .ok g' := by
  have hpass : ∀ (device : Device) (rm : ResourceManager) (p p' : PassObj),
      PassObj.initObj p device rm = .ok p' →
      PassObj.initObj p' device rm = .ok p' := by
    intro device rm p p' h
    cases p with
    | placeholder pp =>
      simp only [PassObj.initObj] at h
      injection h with h
      subst h
      simp only [PassObj.initObj]
    | forward fp =>
      simp only [PassObj.initObj] at h
      by_cases hi : fp.initialized = true
      · rw [if_pos hi] at h
        injection h with h
        subst h
        simp only [PassObj.initObj]
        rw [if_pos hi]
      · rw [if_neg hi] at h
        injection h with h
        subst h
        simp only [PassObj.initObj]
        simp
  have hlist : ∀ (device : Device) (rm : ResourceManager)
      (l l' : List (PassId × PassObj)),
      initAll objIface device rm l = .ok l' →
      initAll objIface device rm l' = .ok l' := by
    intro device rm l
    induction l with
    | nil =>
      intro l' h
      change Except.ok [] = Except.ok l' at h
      injection h with h
      subst h
      rfl
    | cons kp rest ih =>
      intro l' h
      obtain ⟨k, p⟩ := kp
      cases hp : objIface.initFn p device rm with
      | error e =>
        simp only [initAll] at h
        rw [hp] at h
        change Except.error e = Except.ok l' at h
        cases h
      | ok p1 =>
        simp only [initAll] at h
        rw [hp] at h
        cases hr : initAll objIface device rm rest with
        | error e =>
          rw [hr] at h
          change Except.error e = Except.ok l' at h
          cases h
        | ok rest1 =>
          rw [hr] at h
          change Except.ok ((k, p1) :: rest1) = Except.ok l' at h
          injection h with h
          subst h
          have hp1 : objIface.initFn p1 device rm = Except.ok p1 :=
            hpass device rm p p1 hp
          have hr1 : initAll objIface device rm rest1 = Except.ok rest1 := ih rest1 hr
          simp only [initAll]
          rw [hp1, hr1]
  intro g device rm g' h
  unfold RenderGraph.initialize_passes at h ⊢
  cases hl : initAll objIface device rm g.passes with
  | error e =>
    rw [hl] at h
    cases h
  | ok passes' =>
    rw [hl] at h
    injection h with h
    subst h
    rw [show ({ g with passes := passes' } : RenderGraph PassObj).passes = passes'
        from rfl]
    rw [hlist device rm g.passes passes' hl]

theorem initialize_passes_idempotent_witness :
    ((⟨[(PassId.new ("F"), PassObj.forward (ForwardRenderPass.new ("F")))],
        [(PassId.new ("F"), [])], none⟩ : RenderGraph PassObj).initialize_passes
        objIface () ResourceManager.new
      = .ok (⟨[(PassId.new ("F"),
            PassObj.forward ⟨PassId.new ("F"), [], [0.0, 0.0, 0.0, 1.0], (800, 600),
              some ⟨"Forward Render Pipeline"⟩, true⟩)],
          [(PassId.new ("F"), [])], none⟩ : RenderGraph PassObj)) ∧
    ((⟨[(PassId.new ("F"),
          PassObj.forward ⟨PassId.new ("F"), [], [0.0, 0.0, 0.0, 1.0], (800, 600),
            some ⟨"Forward Render Pipeline"⟩, true⟩)],
        [(PassId.new ("F"), [])], none⟩ : RenderGraph PassObj).initialize_passes
        objIface () ResourceManager.new
      = .ok (⟨[(PassId.new ("F"),
            PassObj.forward ⟨PassId.new ("F"), [], [0.0, 0.0, 0.0, 1.0], (800, 600),
              some ⟨"Forward Render Pipeline"⟩, true⟩)],
          [(PassId.new ("F"), [])], none⟩ : RenderGraph PassObj)) :=
  ⟨rfl,
   initialize_passes_idempotent
     (⟨[(PassId.new ("F"), PassObj.forward (ForwardRenderPass.new ("F")))],
       [(PassId.new ("F"), [])], none⟩ : RenderGraph PassObj)
     () ResourceManager.new
     (⟨[(PassId.new ("F"),
         PassObj.forward ⟨PassId.new ("F"), [], [0.0, 0.0, 0.0, 1.0], (800, 600),
           some ⟨"Forward Render Pipeline"⟩, true⟩)],
       [(PassId.new ("F"), [])], none⟩ : RenderGraph PassObj)
     rfl⟩

end RenderSandbox

namespace RenderSandbox

/-! ## Lemmas: the execution loop -/

theorem execLoop_append {π : Type} (iface : PassIface π) (g : RenderGraph π)
    (device : Device) (q : Queue) (rm : ResourceManager) (l₁ l₂ : List PassId)
    (enc : CommandEncoder) :
    execLoop iface g device q rm (l₁ ++ l₂) enc
      = match execLoop iface g device q rm l₁ enc with
        | .error e => .error e
        | .ok enc2 => execLoop iface g device q rm l₂ enc2 := by
  induction l₁ generalizing enc with
  | nil => rfl
  | cons pid rest ih =>
    rw [show (pid :: rest) ++ l₂ = pid :: (rest ++ l₂) from rfl]
    simp only [execLoop]
    cases hl : alook g.passes pid with
    | none => simp
    | some p =>
      simp only []
      cases he : iface.execute p device q rm enc with
      | error e => simp
      | ok enc2 => simp [ih enc2]

theorem execLoop_congr {π : Type} (iface : PassIface π) (g g2 : RenderGraph π)
    (h : g.passes = g2.passes) (device : Device) (q : Queue) (rm : ResourceManager)
    (l : List PassId) (enc : CommandEncoder) :
    execLoop iface g device q rm l enc = execLoop iface g2 device q rm l enc := by
  induction l generalizing enc with
  | nil => rfl
  | cons pid rest ih =>
    simp only [execLoop, h]
    cases hl : alook g2.passes pid with
    | none => simp
    | some p =>
      simp only []
      cases he : iface.execute p device q rm enc with
      | error e => simp
      | ok enc2 => simp [ih enc2]

/-- Claim C5: during `execute()`, the first pass whose `execute` returns an
error aborts the loop; the error is wrapped as `ExecutionFailed` carrying the
failing pass's id and its error text, the queue receives no submission, and
the result does not depend on the passes scheduled after the failing one (no
subsequent pass runs).  Only when every pass succeeds is the single recorded
batch submitted, exactly once. -/
theorem execute_first_failure_atomic :
    ∀ (π : Type) (iface : PassIface π) (g : RenderGraph π) (device : Device)
      (q : Queue) (rm : ResourceManager) (c : CompiledRenderGraph),
    g.compiled = some c →
    ((∀ (pre post : List PassId) (pid : PassId) (p : π) (e : RenderGraphError)
        (enc1 : CommandEncoder),
       c.passes = pre ++ pid :: post →
       execLoop iface g device q rm pre ⟨[]⟩ = .ok enc1 →
       alook g.passes pid = some p →
       iface.execute p device q rm enc1 = .error e →
       (g.execute iface device q rm
          = (.error (.ExecutionFailed
              ("Pass " ++ pid.name ++ " failed: " ++ e.display)), q)) ∧
       (∀ (post' : List PassId) (c' : CompiledRenderGraph),
          c'.passes = pre ++ pid :: post' →
          ({ g with compiled := some c' } : RenderGraph π).execute iface device q rm
            = (.error (.ExecutionFailed
                ("Pass " ++ pid.name ++ " failed: " ++ e.display)), q))) ∧
     (∀ enc : CommandEncoder, execLoop iface g device q rm c.passes ⟨[]⟩ = .ok enc →
       g.execute iface device q rm = (.ok (), ⟨q.submissions ++ [enc.commands]⟩))) := by
  intro π iface g device q rm c hcomp
  have hrun : ∀ (pre post2 : List PassId) (pid : PassId) (p : π)
      (e : RenderGraphError) (enc1 : CommandEncoder),
      execLoop iface g device q rm pre ⟨[]⟩ = .ok enc1 →
      alook g.passes pid = some p →
      iface.execute p device q rm enc1 = .error e →
      execLoop iface g device q rm (pre ++ pid :: post2) ⟨[]⟩
        = .error (.ExecutionFailed ("Pass " ++ pid.name ++ " failed: " ++ e.display)) := by
    intro pre post2 pid p e enc1 hpre hlook hexec
    rw [execLoop_append, hpre]
    show execLoop iface g device q rm (pid :: post2) enc1 = _
    simp only [execLoop]
    rw [hlook]
    show (match iface.execute p device q rm enc1 with
      | .error e0 =>
        Except.error (RenderGraphError.ExecutionFailed
          ("Pass " ++ pid.name ++ " failed: " ++ e0.display))
      | .ok enc' => execLoop iface g device q rm post2 enc') = _
    rw [hexec]
  constructor
  · intro pre post pid p e enc1 hpasses hpre hlook hexec
    constructor
    · show (match g.compiled with
        | none => (Except.error (RenderGraphError.CompilationFailed ("Graph not compiled")), q)
        | some compiled =>
          match execLoop iface g device q rm compiled.passes ⟨[]⟩ with
          | .error e => (Except.error e, q)
          | .ok enc => (Except.ok (), q.submit enc.finish)) = _
      rw [hcomp]
      show (match execLoop iface g device q rm c.passes ⟨[]⟩ with
        | .error e => (Except.error e, q)
        | .ok enc => (Except.ok (), q.submit enc.finish)) = _
      rw [hpasses, hrun pre post pid p e enc1 hpre hlook hexec]
    · intro post' c' hpasses'
      show (match execLoop iface ({ g with compiled := some c' } : RenderGraph π)
          device q rm c'.passes ⟨[]⟩ with
        | .error e => (Except.error e, q)
        | .ok enc => (Except.ok (), q.submit enc.finish)) = _
      rw [execLoop_congr iface { g with compiled := some c' } g rfl]
      rw [hpasses', hrun pre post' pid p e enc1 hpre hlook hexec]
  · intro enc hok
    show (match g.compiled with
      | none => (Except.error (RenderGraphError.CompilationFailed ("Graph not compiled")), q)
      | some compiled =>
        match execLoop iface g device q rm compiled.passes ⟨[]⟩ with
        | .error e => (Except.error e, q)
        | .ok enc => (Except.ok (), q.submit enc.finish)) = _
    rw [hcomp]
    show (match execLoop iface g device q rm c.passes ⟨[]⟩ with
      | .error e => (Except.error e, q)
      | .ok enc => (Except.ok (), q.submit enc.finish)) = _
    rw [hok]
    rfl

theorem execute_first_failure_atomic_witness :
    (⟨[(PassId.new ("good"), PassId.new ("good")),
       (PassId.new ("bad"), PassId.new ("bad"))],
      [(PassId.new ("good"), []), (PassId.new ("bad"), [])],
      some ⟨[PassId.new ("good"), PassId.new ("bad")], []⟩⟩ : RenderGraph PassId).execute
      (⟨fun p => p, fun _ => [], fun p _ _ => .ok p,
        fun p _ _ _ enc => if p = PassId.new ("bad")
          then .error (.ExecutionFailed ("boom"))
          else .ok ⟨enc.commands ++ ["cmd"]⟩⟩ : PassIface PassId)
      () ⟨[]⟩ ResourceManager.new
    = (.error (.ExecutionFailed ("Pass " ++ (PassId.new ("bad")).name ++ " failed: "
        ++ (RenderGraphError.ExecutionFailed ("boom")).display)), ⟨[]⟩) :=
  ((execute_first_failure_atomic PassId
      (⟨fun p => p, fun _ => [], fun p _ _ => .ok p,
        fun p _ _ _ enc => if p = PassId.new ("bad")
          then .error (.ExecutionFailed ("boom"))
          else .ok ⟨enc.commands ++ ["cmd"]⟩⟩ : PassIface PassId)
      (⟨[(PassId.new ("good"), PassId.new ("good")),
         (PassId.new ("bad"), PassId.new ("bad"))],
        [(PassId.new ("good"), []), (PassId.new ("bad"), [])],
        some ⟨[PassId.new ("good"), PassId.new ("bad")], []⟩⟩ : RenderGraph PassId)
      () ⟨[]⟩ ResourceManager.new
      ⟨[PassId.new ("good"), PassId.new ("bad")], []⟩ rfl).1
    [PassId.new ("good")] [] (PassId.new ("bad")) (PassId.new ("bad"))
    (.ExecutionFailed ("boom")) ⟨["cmd"]⟩ rfl rfl rfl rfl).1

end RenderSandbox

namespace RenderSandbox

/-- Claim C4 (the named-resource extension is modelled from the spec, since
only its call sites exist under `src/`): a handle published under a name can
be retrieved by that name by any later pass, also after further publishes
under other names; retrieval for a name that was never published returns
`none`. -/
theorem named_resource_roundtrip :
    ∀ (T U : Type) (rm : ResourceManager) (name : String) (h : Handle T),
    ((rm.publish_named name h).get_named_resource U name = some ⟨h.id⟩) ∧
    (∀ name2, name2 ≠ name →
      (rm.publish_named name h).get_named_resource U name2
        = rm.get_named_resource U name2) ∧
    (∀ (name2 : String) (V : Type) (h2 : Handle V), name2 ≠ name →
      ((rm.publish_named name h).publish_named name2 h2).get_named_resource U name
        = some ⟨h.id⟩) ∧
    (alook rm.named name = none → rm.get_named_resource U name = none) ∧
    (∀ name2, (ResourceManager.new).get_named_resource U name2 = none) := by
  intro T U rm name h
  refine ⟨?_, ?_, ?_, ?_, ?_⟩
  · unfold ResourceManager.publish_named ResourceManager.get_named_resource
    rw [alook_ains_self]
    rfl
  · intro name2 hne
    unfold ResourceManager.publish_named ResourceManager.get_named_resource
    rw [alook_ains_ne _ _ hne]
  · intro name2 V h2 hne
    unfold ResourceManager.publish_named ResourceManager.get_named_resource
    rw [alook_ains_ne _ _ (fun hc => hne hc.symm), alook_ains_self]
    rfl
  · intro hnone
    unfold ResourceManager.get_named_resource
    rw [hnone]
    rfl
  · intro name2
    rfl

theorem named_resource_roundtrip_witness :
    ((ResourceManager.new.publish_named ("BackBuffer")
        (⟨⟨1⟩⟩ : Handle Texture)).get_named_resource Texture ("BackBuffer")
      = some ⟨⟨1⟩⟩) ∧
    (ResourceManager.new.get_named_resource Texture ("DepthBuffer") = none) :=
  ⟨(named_resource_roundtrip Texture Texture ResourceManager.new ("BackBuffer")
      ⟨⟨1⟩⟩).1,
   (named_resource_roundtrip Texture Texture ResourceManager.new ("DepthBuffer")
      ⟨⟨1⟩⟩).2.2.2.1 rfl⟩

/-- Claim C6: every typed lookup `get_<kind>` returns `ResourceNotFound` when
no entry exists under the handle's id, `TypeMismatch` when the entry holds a
different kind, and `Ok` with the stored object otherwise, for all seven
getters of the source.  The lookups take the manager immutably and return
only the result, so the table is unchanged in all three cases by
construction. -/
theorem typed_get_cases :
    ∀ (rm : ResourceManager) (hid : HandleId),
    (alook rm.resources hid = none →
      rm.get_buffer ⟨hid⟩ = .error (.ResourceNotFound hid) ∧
      rm.get_texture ⟨hid⟩ = .error (.ResourceNotFound hid) ∧
      rm.get_shader ⟨hid⟩ = .error (.ResourceNotFound hid) ∧
      rm.get_render_pipeline ⟨hid⟩ = .error (.ResourceNotFound hid) ∧
      rm.get_bind_group_layout ⟨hid⟩ = .error (.ResourceNotFound hid) ∧
      rm.get_bind_group ⟨hid⟩ = .error (.ResourceNotFound hid) ∧
      rm.get_sampler ⟨hid⟩ = .error (.ResourceNotFound hid)) ∧
    (∀ x, alook rm.resources hid = some (.Buffer x) → rm.get_buffer ⟨hid⟩ = .ok x) ∧
    (∀ r, alook rm.resources hid = some r → (∀ x, r ≠ .Buffer x) →
      rm.get_buffer ⟨hid⟩ = .error (.TypeMismatch hid)) ∧
    (∀ x, alook rm.resources hid = some (.Texture x) → rm.get_texture ⟨hid⟩ = .ok x) ∧
    (∀ r, alook rm.resources hid = some r → (∀ x, r ≠ .Texture x) →
      rm.get_texture ⟨hid⟩ = .error (.TypeMismatch hid)) ∧
    (∀ x, alook rm.resources hid = some (.Shader x) → rm.get_shader ⟨hid⟩ = .ok x) ∧
    (∀ r, alook rm.resources hid = some r → (∀ x, r ≠ .Shader x) →
      rm.get_shader ⟨hid⟩ = .error (.TypeMismatch hid)) ∧
    (∀ x, alook rm.resources hid = some (.RenderPipeline x) → rm.get_render_pipeline ⟨hid⟩ = .ok x) ∧
    (∀ r, alook rm.resources hid = some r → (∀ x, r ≠ .RenderPipeline x) →
      rm.get_render_pipeline ⟨hid⟩ = .error (.TypeMismatch hid)) ∧
    (∀ x, alook rm.resources hid = some (.BindGroupLayout x) → rm.get_bind_group_layout ⟨hid⟩ = .ok x) ∧
    (∀ r, alook rm.resources hid = some r → (∀ x, r ≠ .BindGroupLayout x) →
      rm.get_bind_group_layout ⟨hid⟩ = .error (.TypeMismatch hid)) ∧
    (∀ x, alook rm.resources hid = some (.BindGroup x) → rm.get_bind_group ⟨hid⟩ = .ok x) ∧
    (∀ r, alook rm.resources hid = some r → (∀ x, r ≠ .BindGroup x) →
      rm.get_bind_group ⟨hid⟩ = .error (.TypeMismatch hid)) ∧
    (∀ x, alook rm.resources hid = some (.Sampler x) → rm.get_sampler ⟨hid⟩ = .ok x) ∧
    (∀ r, alook rm.resources hid = some r → (∀ x, r ≠ .Sampler x) →
      rm.get_sampler ⟨hid⟩ = .error (.TypeMismatch hid))
    := by
  intro rm hid
  refine ⟨?_, ?_, ?_, ?_, ?_, ?_, ?_, ?_, ?_, ?_, ?_, ?_, ?_, ?_, ?_⟩
  · intro h
    refine ⟨?_, ?_, ?_, ?_, ?_, ?_, ?_⟩ <;>
      first
      | (unfold ResourceManager.get_buffer;
         rw [show (⟨hid⟩ : Handle Buffer).id = hid from rfl, h])
      | (unfold ResourceManager.get_texture;
         rw [show (⟨hid⟩ : Handle Texture).id = hid from rfl, h])
      | (unfold ResourceManager.get_shader;
         rw [show (⟨hid⟩ : Handle ShaderModule).id = hid from rfl, h])
      | (unfold ResourceManager.get_render_pipeline;
         rw [show (⟨hid⟩ : Handle RenderPipeline).id = hid from rfl, h])
      | (unfold ResourceManager.get_bind_group_layout;
         rw [show (⟨hid⟩ : Handle BindGroupLayout).id = hid from rfl, h])
      | (unfold ResourceManager.get_bind_group;
         rw [show (⟨hid⟩ : Handle BindGroup).id = hid from rfl, h])
      | (unfold ResourceManager.get_sampler;
         rw [show (⟨hid⟩ : Handle Sampler).id = hid from rfl, h])
  · intro x h
    unfold ResourceManager.get_buffer
    rw [show (⟨hid⟩ : Handle Buffer).id = hid from rfl, h]
  · intro r h hne
    unfold ResourceManager.get_buffer
    rw [show (⟨hid⟩ : Handle Buffer).id = hid from rfl, h]
    cases r with
    | Buffer x => exact absurd rfl (hne x)
    | Texture x => rfl
    | BindGroup x => rfl
    | BindGroupLayout x => rfl
    | RenderPipeline x => rfl
    | ComputePipeline x => rfl
    | Shader x => rfl
    | Sampler x => rfl
  · intro x h
    unfold ResourceManager.get_texture
    rw [show (⟨hid⟩ : Handle Texture).id = hid from rfl, h]
  · intro r h hne
    unfold ResourceManager.get_texture
    rw [show (⟨hid⟩ : Handle Texture).id = hid from rfl, h]
    cases r with
    | Buffer x => rfl
    | Texture x => exact absurd rfl (hne x)
    | BindGroup x => rfl
    | BindGroupLayout x => rfl
    | RenderPipeline x => rfl
    | ComputePipeline x => rfl
    | Shader x => rfl
    | Sampler x => rfl
  · intro x h
    unfold ResourceManager.get_shader
    rw [show (⟨hid⟩ : Handle ShaderModule).id = hid from rfl, h]
  · intro r h hne
    unfold ResourceManager.get_shader
    rw [show (⟨hid⟩ : Handle ShaderModule).id = hid from rfl, h]
    cases r with
    | Buffer x => rfl
    | Texture x => rfl
    | BindGroup x => rfl
    | BindGroupLayout x => rfl
    | RenderPipeline x => rfl
    | ComputePipeline x => rfl
    | Shader x => exact absurd rfl (hne x)
    | Sampler x => rfl
  · intro x h
    unfold ResourceManager.get_render_pipeline
    rw [show (⟨hid⟩ : Handle RenderPipeline).id = hid from rfl, h]
  · intro r h hne
    unfold ResourceManager.get_render_pipeline
    rw [show (⟨hid⟩ : Handle RenderPipeline).id = hid from rfl, h]
    cases r with
    | Buffer x => rfl
    | Texture x => rfl
    | BindGroup x => rfl
    | BindGroupLayout x => rfl
    | RenderPipeline x => exact absurd rfl (hne x)
    | ComputePipeline x => rfl
    | Shader x => rfl
    | Sampler x => rfl
  · intro x h
    unfold ResourceManager.get_bind_group_layout
    rw [show (⟨hid⟩ : Handle BindGroupLayout).id = hid from rfl, h]
  · intro r h hne
    unfold ResourceManager.get_bind_group_layout
    rw [show (⟨hid⟩ : Handle BindGroupLayout).id = hid from rfl, h]
    cases r with
    | Buffer x => rfl
    | Texture x => rfl
    | BindGroup x => rfl
    | BindGroupLayout x => exact absurd rfl (hne x)
    | RenderPipeline x => rfl
    | ComputePipeline x => rfl
    | Shader x => rfl
    | Sampler x => rfl
  · intro x h
    unfold ResourceManager.get_bind_group
    rw [show (⟨hid⟩ : Handle BindGroup).id = hid from rfl, h]
  · intro r h hne
    unfold ResourceManager.get_bind_group
    rw [show (⟨hid⟩ : Handle BindGroup).id = hid from rfl, h]
    cases r with
    | Buffer x => rfl
    | Texture x => rfl
    | BindGroup x => exact absurd rfl (hne x)
    | BindGroupLayout x => rfl
    | RenderPipeline x => rfl
    | ComputePipeline x => rfl
    | Shader x => rfl
    | Sampler x => rfl
  · intro x h
    unfold ResourceManager.get_sampler
    rw [show (⟨hid⟩ : Handle Sampler).id = hid from rfl, h]
  · intro r h hne
    unfold ResourceManager.get_sampler
    rw [show (⟨hid⟩ : Handle Sampler).id = hid from rfl, h]
    cases r with
    | Buffer x => rfl
    | Texture x => rfl
    | BindGroup x => rfl
    | BindGroupLayout x => rfl
    | RenderPipeline x => rfl
    | ComputePipeline x => rfl
    | Shader x => rfl
    | Sampler x => exact absurd rfl (hne x)

theorem typed_get_cases_witness :
    ((⟨[(⟨1⟩, Resource.Texture ⟨"t"⟩)], []⟩ : ResourceManager).get_buffer ⟨⟨1⟩⟩
      = .error (.TypeMismatch ⟨1⟩)) ∧
    ((⟨[(⟨1⟩, Resource.Texture ⟨"t"⟩)], []⟩ : ResourceManager).get_sampler ⟨⟨1⟩⟩
      = .error (.TypeMismatch ⟨1⟩)) ∧
    ((⟨[(⟨1⟩, Resource.Texture ⟨"t"⟩)], []⟩ : ResourceManager).get_texture ⟨⟨1⟩⟩
      = .ok ⟨"t"⟩) ∧
    ((⟨[(⟨1⟩, Resource.Texture ⟨"t"⟩)], []⟩ : ResourceManager).get_buffer ⟨⟨2⟩⟩
      = .error (.ResourceNotFound ⟨2⟩)) ∧
    ((⟨[(⟨1⟩, Resource.Texture ⟨"t"⟩)], []⟩ : ResourceManager).get_shader ⟨⟨2⟩⟩
      = .error (.ResourceNotFound ⟨2⟩)) :=
  ⟨(typed_get_cases (⟨[(⟨1⟩, Resource.Texture ⟨"t"⟩)], []⟩ : ResourceManager)
      ⟨1⟩).2.2.1 (Resource.Texture ⟨"t"⟩) rfl (fun x hx => by cases hx),
   (typed_get_cases (⟨[(⟨1⟩, Resource.Texture ⟨"t"⟩)], []⟩ : ResourceManager)
      ⟨1⟩).2.2.2.2.2.2.2.2.2.2.2.2.2.2 (Resource.Texture ⟨"t"⟩) rfl (fun x hx => by cases hx),
   (typed_get_cases (⟨[(⟨1⟩, Resource.Texture ⟨"t"⟩)], []⟩ : ResourceManager)
      ⟨1⟩).2.2.2.1 ⟨"t"⟩ rfl,
   ((typed_get_cases (⟨[(⟨1⟩, Resource.Texture ⟨"t"⟩)], []⟩ : ResourceManager)
      ⟨2⟩).1 rfl).1,
   ((typed_get_cases (⟨[(⟨1⟩, Resource.Texture ⟨"t"⟩)], []⟩ : ResourceManager)
      ⟨2⟩).1 rfl).2.2.1⟩

/-- Claim C10: `remove_resource` matches by numeric id only and ignores the
handle's phantom type tag: with the id present under any stored kind it
returns `true` and deletes exactly that entry; with the id absent it returns
`false` and leaves the manager unchanged. -/
theorem remove_resource_by_id :
    ∀ (T : Type) (rm : ResourceManager) (h : Handle T),
    (akeys rm.resources).Nodup →
    (∀ r, alook rm.resources h.id = some r →
      ((rm.remove_resource h).1 = true ∧
       alook (rm.remove_resource h).2.resources h.id = none ∧
       (∀ k, k ≠ h.id → alook (rm.remove_resource h).2.resources k
         = alook rm.resources k) ∧
       (rm.remove_resource h).2.named = rm.named)) ∧
    (alook rm.resources h.id = none →
      (rm.remove_resource h).1 = false ∧ (rm.remove_resource h).2 = rm) := by
  intro T rm h hnd
  constructor
  · intro r hr
    refine ⟨?_, ?_, ?_, rfl⟩
    · unfold ResourceManager.remove_resource
      rw [hr]
      rfl
    · unfold ResourceManager.remove_resource
      exact alook_aerase_self hnd
    · intro k hk
      unfold ResourceManager.remove_resource
      exact alook_aerase_ne _ hk
  · intro hnone
    constructor
    · unfold ResourceManager.remove_resource
      rw [hnone]
      rfl
    · unfold ResourceManager.remove_resource
      rw [aerase_of_alook_none hnone]

theorem remove_resource_by_id_witness :
    (((⟨[(⟨1⟩, Resource.Texture ⟨"t"⟩)], []⟩ : ResourceManager).remove_resource
        (⟨⟨1⟩⟩ : Handle Buffer)).1 = true ∧
     alook ((⟨[(⟨1⟩, Resource.Texture ⟨"t"⟩)], []⟩ : ResourceManager).remove_resource
        (⟨⟨1⟩⟩ : Handle Buffer)).2.resources (⟨⟨1⟩⟩ : Handle Buffer).id = none ∧
     (∀ k, k ≠ (⟨⟨1⟩⟩ : Handle Buffer).id →
       alook ((⟨[(⟨1⟩, Resource.Texture ⟨"t"⟩)], []⟩ : ResourceManager).remove_resource
          (⟨⟨1⟩⟩ : Handle Buffer)).2.resources k
         = alook (⟨[(⟨1⟩, Resource.Texture ⟨"t"⟩)], []⟩ : ResourceManager).resources k) ∧
     ((⟨[(⟨1⟩, Resource.Texture ⟨"t"⟩)], []⟩ : ResourceManager).remove_resource
        (⟨⟨1⟩⟩ : Handle Buffer)).2.named
       = (⟨[(⟨1⟩, Resource.Texture ⟨"t"⟩)], []⟩ : ResourceManager).named) ∧
    (((⟨[(⟨1⟩, Resource.Texture ⟨"t"⟩)], []⟩ : ResourceManager).remove_resource
        (⟨⟨2⟩⟩ : Handle Buffer)).1 = false ∧
     ((⟨[(⟨1⟩, Resource.Texture ⟨"t"⟩)], []⟩ : ResourceManager).remove_resource
        (⟨⟨2⟩⟩ : Handle Buffer)).2
       = (⟨[(⟨1⟩, Resource.Texture ⟨"t"⟩)], []⟩ : ResourceManager)) :=
  ⟨(remove_resource_by_id Buffer (⟨[(⟨1⟩, Resource.Texture ⟨"t"⟩)], []⟩ : ResourceManager)
      ⟨⟨1⟩⟩ (by decide)).1 (Resource.Texture ⟨"t"⟩) rfl,
   (remove_resource_by_id Buffer (⟨[(⟨1⟩, Resource.Texture ⟨"t"⟩)], []⟩ : ResourceManager)
      ⟨⟨2⟩⟩ (by decide)).2 rfl⟩

end RenderSandbox

namespace RenderSandbox

/-! ## Lemmas: handle-id accounting over operation sequences -/

theorem akeys_ains_sub {α β : Type} [DecidableEq α] {l : List (α × β)} {a : α} {b : β}
    {k : α} (h : k ∈ akeys (ains l a b)) : k = a ∨ k ∈ akeys l := by
  induction l with
  | nil =>
    rw [show ains ([] : List (α × β)) a b = [(a, b)] from rfl] at h
    rcases List.mem_cons.1 h with h1 | h1
    · exact Or.inl h1
    · simp at h1
  | cons kv rest ih =>
    obtain ⟨k1, v1⟩ := kv
    by_cases hk : a = k1
    · rw [show ains ((k1, v1) :: rest) a b = (a, b) :: rest from by simp [ains, hk]] at h
      rw [akeys_cons] at h
      rcases List.mem_cons.1 h with h1 | h1
      · exact Or.inl h1
      · right
        rw [akeys_cons]
        exact List.mem_cons_of_mem _ h1
    · rw [show ains ((k1, v1) :: rest) a b = (k1, v1) :: ains rest a b from by
        simp [ains, hk]] at h
      rw [akeys_cons] at h
      rw [akeys_cons]
      rcases List.mem_cons.1 h with h1 | h1
      · exact Or.inr (List.mem_cons.2 (Or.inl h1))
      · rcases ih h1 with h2 | h2
        · exact Or.inl h2
        · exact Or.inr (List.mem_cons_of_mem _ h2)

theorem akeys_aerase_sub {α β : Type} [DecidableEq α] {l : List (α × β)} {a k : α}
    (h : k ∈ akeys (aerase l a)) : k ∈ akeys l := by
  induction l with
  | nil => simpa [aerase] using h
  | cons kv rest ih =>
    obtain ⟨k1, v1⟩ := kv
    by_cases hk : a = k1
    · rw [show aerase ((k1, v1) :: rest) a = rest from by simp [aerase, hk]] at h
      rw [akeys_cons]
      exact List.mem_cons_of_mem _ h
    · rw [show aerase ((k1, v1) :: rest) a = (k1, v1) :: aerase rest a from by
        simp [aerase, hk]] at h
      rw [akeys_cons] at h
      rw [akeys_cons]
      rcases List.mem_cons.1 h with h1 | h1
      · exact List.mem_cons.2 (Or.inl h1)
      · exact List.mem_cons_of_mem _ (ih h1)

theorem alook_aerase_none {α β : Type} [DecidableEq α] {l : List (α × β)} {k a : α}
    (h : alook l k = none) : alook (aerase l a) k = none := by
  by_cases hk : k = a
  · subst hk
    rw [aerase_of_alook_none h]
    exact h
  · rw [alook_aerase_ne _ hk]
    exact h

theorem chain'_lt_head_lt : ∀ (l : List HandleId) (a : HandleId),
    List.Chain' (fun x y : HandleId => x.id < y.id) (a :: l) →
    ∀ b ∈ l, a.id < b.id := by
  intro l
  induction l with
  | nil =>
    intro a _ b hb
    simp at hb
  | cons c l2 ih =>
    intro a h b hb
    rw [List.chain'_cons] at h
    rcases List.mem_cons.1 hb with rfl | hb2
    · exact h.1
    · exact Nat.lt_trans h.1 (ih c h.2 b hb2)

theorem chain'_lt_nodup : ∀ (l : List HandleId),
    List.Chain' (fun x y : HandleId => x.id < y.id) l → l.Nodup := by
  intro l
  induction l with
  | nil =>
    intro _
    exact List.nodup_nil
  | cons a l2 ih =>
    intro h
    refine List.nodup_cons.2 ⟨?_, ih h.tail⟩
    intro hmem
    exact absurd (chain'_lt_head_lt l2 a h a hmem) (Nat.lt_irrefl _)

theorem countCreates_cons_create (op : MgrOp) (h : op.isCreate = true)
    (rest : List MgrOp) : countCreates (op :: rest) = countCreates rest + 1 := by
  simp [countCreates, List.filter_cons, h]

theorem countCreates_cons_noncreate (op : MgrOp) (h : op.isCreate = false)
    (rest : List MgrOp) : countCreates (op :: rest) = countCreates rest := by
  simp [countCreates, List.filter_cons, h]

/-- Invariants of one `create_*` step followed by the rest of the run: the
issued id is the counter's current value, every later id is strictly larger,
manager/counter consistency is maintained, and a stale absent id stays
absent. -/
theorem runOps_create_invariants (device : Device) (rest : List MgrOp)
    (rm : ResourceManager) (c : HandleCounter) (res : Resource)
    (hwf : rmWf rm c)
    (hbound : c.next + (countCreates rest + 1) < 2 ^ 64)
    (IH : ∀ (rm2 : ResourceManager) (c2 : HandleCounter), rmWf rm2 c2 →
      c2.next + countCreates rest < 2 ^ 64 →
      (List.Chain' (fun a b : HandleId => a.id < b.id) (runOps device rest rm2 c2).2.2 ∧
       (∀ i ∈ (runOps device rest rm2 c2).2.2, c2.next ≤ i.id) ∧
       rmWf (runOps device rest rm2 c2).1 (runOps device rest rm2 c2).2.1 ∧
       (∀ hid : HandleId, hid.id < c2.next → alook rm2.resources hid = none →
         alook (runOps device rest rm2 c2).1.resources hid = none))) :
    (List.Chain' (fun a b : HandleId => a.id < b.id)
      ((⟨c.next⟩ : HandleId) :: (runOps device rest
        { rm with resources := ains rm.resources ⟨c.next⟩ res }
        ⟨(c.next + 1) % 2 ^ 64⟩).2.2) ∧
     (∀ i ∈ (⟨c.next⟩ : HandleId) :: (runOps device rest
        { rm with resources := ains rm.resources ⟨c.next⟩ res }
        ⟨(c.next + 1) % 2 ^ 64⟩).2.2, c.next ≤ i.id) ∧
     rmWf (runOps device rest
        { rm with resources := ains rm.resources ⟨c.next⟩ res }
        ⟨(c.next + 1) % 2 ^ 64⟩).1
       (runOps device rest
        { rm with resources := ains rm.resources ⟨c.next⟩ res }
        ⟨(c.next + 1) % 2 ^ 64⟩).2.1 ∧
     (∀ hid : HandleId, hid.id < c.next → alook rm.resources hid = none →
       alook (runOps device rest
        { rm with resources := ains rm.resources ⟨c.next⟩ res }
        ⟨(c.next + 1) % 2 ^ 64⟩).1.resources hid = none)) := by
  have hmod : (c.next + 1) % 2 ^ 64 = c.next + 1 := Nat.mod_eq_of_lt (by omega)
  have hwf2 : rmWf { rm with resources := ains rm.resources ⟨c.next⟩ res }
      ⟨(c.next + 1) % 2 ^ 64⟩ := by
    refine ⟨?_, ?_⟩
    · show (c.next + 1) % 2 ^ 64 < 2 ^ 64
      rw [hmod]
      omega
    · intro k hk
      show k.id < (c.next + 1) % 2 ^ 64
      rw [hmod]
      rcases akeys_ains_sub hk with h1 | h1
      · rw [h1]
        exact Nat.lt_succ_self _
      · have := hwf.2 k h1
        omega
  have hbound2 : (⟨(c.next + 1) % 2 ^ 64⟩ : HandleCounter).next + countCreates rest
      < 2 ^ 64 := by
    show (c.next + 1) % 2 ^ 64 + countCreates rest < 2 ^ 64
    rw [hmod]
    omega
  obtain ⟨hchain, hlow, hwf3, hstale⟩ := IH _ _ hwf2 hbound2
  have hlow2 : ∀ i ∈ (runOps device rest
      { rm with resources := ains rm.resources ⟨c.next⟩ res }
      ⟨(c.next + 1) % 2 ^ 64⟩).2.2, c.next + 1 ≤ i.id := by
    intro i hi
    have h2 := hlow i hi
    rw [show (⟨(c.next + 1) % 2 ^ 64⟩ : HandleCounter).next = (c.next + 1) % 2 ^ 64
      from rfl, hmod] at h2
    exact h2
  refine ⟨?_, ?_, hwf3, ?_⟩
  · rw [List.chain'_cons']
    refine ⟨?_, hchain⟩
    intro y hy
    have h2 := hlow2 y (List.mem_of_mem_head? hy)
    show c.next < y.id
    omega
  · intro i hi
    rcases List.mem_cons.1 hi with rfl | hi2
    · exact Nat.le_refl _
    · have := hlow2 i hi2
      omega
  · intro hid hlt hnone
    apply hstale hid
    · show hid.id < (c.next + 1) % 2 ^ 64
      rw [hmod]
      omega
    · show alook (ains rm.resources ⟨c.next⟩ res) hid = none
      rw [alook_ains_ne _ _ (by
        intro hc
        rw [hc] at hlt
        exact absurd hlt (Nat.lt_irrefl _))]
      exact hnone

/-- The invariants of a whole run of manager operations, proved by induction
over the sequence: the issued ids are strictly increasing, each is at least
the starting counter value, the manager/counter consistency is preserved, and
an id absent and below the starting counter stays absent. -/
theorem runOps_invariants (device : Device) : ∀ (ops : List MgrOp)
    (rm : ResourceManager) (c : HandleCounter), rmWf rm c →
    c.next + countCreates ops < 2 ^ 64 →
    (List.Chain' (fun a b : HandleId => a.id < b.id) (runOps device ops rm c).2.2 ∧
     (∀ i ∈ (runOps device ops rm c).2.2, c.next ≤ i.id) ∧
     rmWf (runOps device ops rm c).1 (runOps device ops rm c).2.1 ∧
     (∀ hid : HandleId, hid.id < c.next → alook rm.resources hid = none →
       alook (runOps device ops rm c).1.resources hid = none)) := by
  intro ops
  induction ops with
  | nil =>
    intro rm c hwf hbound
    refine ⟨by simp [runOps], by simp [runOps], hwf, ?_⟩
    intro hid hlt hnone
    exact hnone
  | cons op rest ih =>
    intro rm c hwf hbound
    cases op with
    | createBuffer desc =>
      exact runOps_create_invariants device rest rm c
        (.Buffer (device.create_buffer desc)) hwf
        (by rw [countCreates_cons_create (MgrOp.createBuffer desc) rfl] at hbound; omega) ih
    | createBufferInit desc =>
      exact runOps_create_invariants device rest rm c
        (.Buffer (device.create_buffer_init desc)) hwf
        (by rw [countCreates_cons_create (MgrOp.createBufferInit desc) rfl] at hbound; omega) ih
    | createTexture desc =>
      exact runOps_create_invariants device rest rm c
        (.Texture (device.create_texture desc)) hwf
        (by rw [countCreates_cons_create (MgrOp.createTexture desc) rfl] at hbound; omega) ih
    | createShader desc =>
      exact runOps_create_invariants device rest rm c
        (.Shader (device.create_shader_module desc)) hwf
        (by rw [countCreates_cons_create (MgrOp.createShader desc) rfl] at hbound; omega) ih
    | createRenderPipeline desc =>
      exact runOps_create_invariants device rest rm c
        (.RenderPipeline (device.create_render_pipeline desc)) hwf
        (by rw [countCreates_cons_create (MgrOp.createRenderPipeline desc) rfl] at hbound; omega) ih
    | createBindGroupLayout desc =>
      exact runOps_create_invariants device rest rm c
        (.BindGroupLayout (device.create_bind_group_layout desc)) hwf
        (by rw [countCreates_cons_create (MgrOp.createBindGroupLayout desc) rfl] at hbound; omega) ih
    | createBindGroup desc =>
      exact runOps_create_invariants device rest rm c
        (.BindGroup (device.create_bind_group desc)) hwf
        (by rw [countCreates_cons_create (MgrOp.createBindGroup desc) rfl] at hbound; omega) ih
    | createSampler desc =>
      exact runOps_create_invariants device rest rm c
        (.Sampler (device.create_sampler desc)) hwf
        (by rw [countCreates_cons_create (MgrOp.createSampler desc) rfl] at hbound; omega) ih
    | removeResource i =>
      have hwf2 : rmWf { rm with resources := aerase rm.resources i } c :=
        ⟨hwf.1, fun k hk => hwf.2 k (akeys_aerase_sub hk)⟩
      have hb2 : c.next + countCreates rest < 2 ^ 64 := by
        rw [countCreates_cons_noncreate (MgrOp.removeResource i) rfl] at hbound
        exact hbound
      obtain ⟨h1, h2, h3, h4⟩ := ih _ c hwf2 hb2
      refine ⟨h1, h2, h3, ?_⟩
      intro hid hlt hnone
      exact h4 hid hlt (alook_aerase_none hnone)
    | clearAll =>
      have hwf2 : rmWf rm.clear c := by
        refine ⟨hwf.1, ?_⟩
        intro k hk
        simp [ResourceManager.clear, akeys] at hk
      have hb2 : c.next + countCreates rest < 2 ^ 64 := by
        rw [countCreates_cons_noncreate MgrOp.clearAll rfl] at hbound
        exact hbound
      obtain ⟨h1, h2, h3, h4⟩ := ih _ c hwf2 hb2
      refine ⟨h1, h2, h3, ?_⟩
      intro hid hlt _
      exact h4 hid hlt rfl

end RenderSandbox

namespace RenderSandbox

/-- Closed form of the ids issued by a run of `n` repeated `create_buffer`
calls starting at counter value `v`: the `i`-th issued id is `(v + i)` reduced
`mod 2 ^ 64` (the `u64` wrap of `fetch_add`). -/
theorem runOps_replicate_ids : ∀ (n : Nat) (rm : ResourceManager) (v : Nat),
    v < 2 ^ 64 →
    (runOps () (List.replicate n (MgrOp.createBuffer ⟨"b"⟩)) rm ⟨v⟩).2.2
      = (List.range n).map (fun i => (⟨(v + i) % 2 ^ 64⟩ : HandleId)) := by
  intro n
  induction n with
  | zero =>
    intro rm v hv
    rfl
  | succ n ih =>
    intro rm v hv
    rw [List.replicate_succ]
    rw [show (runOps () (MgrOp.createBuffer ⟨"b"⟩ ::
          List.replicate n (MgrOp.createBuffer ⟨"b"⟩)) rm ⟨v⟩).2.2
        = (⟨v⟩ : HandleId) :: (runOps () (List.replicate n (MgrOp.createBuffer ⟨"b"⟩))
            ⟨ains rm.resources ⟨v⟩ (.Buffer (Device.create_buffer () ⟨"b"⟩)), rm.named⟩
            ⟨(v + 1) % 2 ^ 64⟩).2.2 from rfl]
    rw [ih _ _ (Nat.mod_lt _ (by norm_num))]
    rw [List.range_succ_eq_map, List.map_cons, List.map_map]
    congr 1
    · show (⟨v⟩ : HandleId) = ⟨(v + 0) % 2 ^ 64⟩
      rw [Nat.add_zero, Nat.mod_eq_of_lt hv]
    · congr 1
      funext i
      show (⟨((v + 1) % 2 ^ 64 + i) % 2 ^ 64⟩ : HandleId) = ⟨(v + Nat.succ i) % 2 ^ 64⟩
      rw [Nat.mod_add_mod]
      congr 1
      omega

/-- Claim C7 (counterexample): the `u64` counter behind `next_handle_id`
wraps: after `2 ^ 64` `create_buffer` calls from the initial counter the
sequence of issued ids is not strictly increasing (the id value `0` is issued
after `2 ^ 64 - 1`), so handle ids are not strictly increasing over the whole
process lifetime and can be reused. -/
theorem handle_ids_wrap_cex :
    ¬ List.Chain' (fun a b : HandleId => a.id < b.id)
      ((runOps () (List.replicate (2 ^ 64) (MgrOp.createBuffer ⟨"b"⟩))
        ResourceManager.new HANDLE_COUNTER_INIT).2.2) := by
  intro hch
  rw [show HANDLE_COUNTER_INIT = (⟨1⟩ : HandleCounter) from rfl] at hch
  rw [runOps_replicate_ids (2 ^ 64) ResourceManager.new 1 (by norm_num)] at hch
  rw [List.chain'_iff_get] at hch
  have hmain := hch (2 ^ 64 - 2) (by
    simp only [List.length_map, List.length_range]
    norm_num)
  simp only [List.get_eq_getElem, List.getElem_map, List.getElem_range] at hmain
  have h1 : (1 + (2 ^ 64 - 2)) % 2 ^ 64 = 2 ^ 64 - 1 := by
    rw [show 1 + (2 ^ 64 - 2) = 2 ^ 64 - 1 from by omega]
    exact Nat.mod_eq_of_lt (by omega)
  have h2 : (1 + (2 ^ 64 - 2 + 1)) % 2 ^ 64 = 0 := by
    rw [show 1 + (2 ^ 64 - 2 + 1) = 2 ^ 64 from by
      have : (2:Nat) ≤ 2 ^ 64 := by norm_num
      omega]
    exact Nat.mod_self _
  rw [h1, h2] at hmain
  exact absurd hmain (Nat.not_lt_zero _)

/-- Claim C7 (amended): as long as the `u64` counter does not overflow — the
starting counter value plus the number of `create_*` calls stays below
`2 ^ 64` — ids issued by `create_*` calls are strictly increasing, pairwise
distinct, and at least the starting counter value; and for a stale handle
(id below the starting counter, absent from the table) the entry stays
absent through any sequence of creates, removes and clears, so `get_buffer`
on it returns `ResourceNotFound` and never aliases a later-created object.
Without the no-overflow bound the claim fails (`handle_ids_wrap_cex`). -/
theorem handle_ids_monotone_amended :
    ∀ (device : Device) (ops : List MgrOp) (rm : ResourceManager)
      (c : HandleCounter),
    rmWf rm c → c.next + countCreates ops < 2 ^ 64 →
    (List.Chain' (fun a b : HandleId => a.id < b.id) (runOps device ops rm c).2.2 ∧
     (runOps device ops rm c).2.2.Nodup ∧
     (∀ i ∈ (runOps device ops rm c).2.2, c.next ≤ i.id) ∧
     (∀ hid : HandleId, hid.id < c.next → alook rm.resources hid = none →
       alook (runOps device ops rm c).1.resources hid = none ∧
       (runOps device ops rm c).1.get_buffer ⟨hid⟩
         = .error (.ResourceNotFound hid))) := by
  intro device ops rm c hwf hbound
  obtain ⟨h1, h2, h3, h4⟩ := runOps_invariants device ops rm c hwf hbound
  refine ⟨h1, chain'_lt_nodup _ h1, h2, ?_⟩
  intro hid hlt hnone
  have hn := h4 hid hlt hnone
  refine ⟨hn, ?_⟩
  show (match alook (runOps device ops rm c).1.resources hid with
        | some (Resource.Buffer buffer) => Except.ok buffer
        | some _ => Except.error (ResourceError.TypeMismatch hid)
        | none => Except.error (ResourceError.ResourceNotFound hid))
      = Except.error (ResourceError.ResourceNotFound hid)
  rw [hn]

theorem handle_ids_monotone_amended_witness :
    rmWf ResourceManager.new HANDLE_COUNTER_INIT ∧
    HANDLE_COUNTER_INIT.next + countCreates
      [MgrOp.createBuffer ⟨"b"⟩, MgrOp.removeResource ⟨1⟩,
       MgrOp.createTexture ⟨"t"⟩] < 2 ^ 64 ∧
    (List.Chain' (fun a b : HandleId => a.id < b.id)
      (runOps () [MgrOp.createBuffer ⟨"b"⟩, MgrOp.removeResource ⟨1⟩,
        MgrOp.createTexture ⟨"t"⟩] ResourceManager.new HANDLE_COUNTER_INIT).2.2 ∧
     (runOps () [MgrOp.createBuffer ⟨"b"⟩, MgrOp.removeResource ⟨1⟩,
        MgrOp.createTexture ⟨"t"⟩] ResourceManager.new HANDLE_COUNTER_INIT).2.2.Nodup ∧
     (∀ i ∈ (runOps () [MgrOp.createBuffer ⟨"b"⟩, MgrOp.removeResource ⟨1⟩,
        MgrOp.createTexture ⟨"t"⟩] ResourceManager.new HANDLE_COUNTER_INIT).2.2,
       HANDLE_COUNTER_INIT.next ≤ i.id) ∧
     (∀ hid : HandleId, hid.id < HANDLE_COUNTER_INIT.next →
       alook ResourceManager.new.resources hid = none →
       alook (runOps () [MgrOp.createBuffer ⟨"b"⟩, MgrOp.removeResource ⟨1⟩,
         MgrOp.createTexture ⟨"t"⟩] ResourceManager.new HANDLE_COUNTER_INIT).1.resources
           hid = none ∧
       (runOps () [MgrOp.createBuffer ⟨"b"⟩, MgrOp.removeResource ⟨1⟩,
         MgrOp.createTexture ⟨"t"⟩] ResourceManager.new HANDLE_COUNTER_INIT).1.get_buffer
           ⟨hid⟩ = .error (.ResourceNotFound hid))) :=
  ⟨⟨by norm_num [HANDLE_COUNTER_INIT], by intro k hk; simp [ResourceManager.new, akeys] at hk⟩,
   by norm_num [HANDLE_COUNTER_INIT, countCreates, List.filter, MgrOp.isCreate],
   handle_ids_monotone_amended () _ ResourceManager.new HANDLE_COUNTER_INIT
     ⟨by norm_num [HANDLE_COUNTER_INIT], by intro k hk; simp [ResourceManager.new, akeys] at hk⟩
     (by norm_num [HANDLE_COUNTER_INIT, countCreates, List.filter, MgrOp.isCreate])⟩

end RenderSandbox
